import Mathlib

/-!
Verification of the CleanDoc document-redaction engine
(`app/services/document_cleaner.py`) against its specification.

The engine's text machinery (Python `str` / `re`) is embedded over
`List Char`; the document tree (lxml elements) is embedded as a
first-child / next-sibling tree; each pass of the engine is translated
into a pure function.  Stats counters are threaded explicitly.
-/

namespace CleanDoc

/-- Python strings are modelled as lists of characters. -/
abbrev Str := List Char

/-- The character class matched by Python's `\s` (and stripped by
`str.strip()`): ASCII whitespace, the C1 separators, and the Unicode
space characters. -/
def isPySpace (c : Char) : Bool :=
  c = ' ' ∨ (9 ≤ c.toNat ∧ c.toNat ≤ 13) ∨ (28 ≤ c.toNat ∧ c.toNat ≤ 31) ∨
  c.toNat = 0x85 ∨ c.toNat = 0xa0 ∨ c.toNat = 0x1680 ∨
  (0x2000 ≤ c.toNat ∧ c.toNat ≤ 0x200a) ∨
  c.toNat = 0x2028 ∨ c.toNat = 0x2029 ∨ c.toNat = 0x202f ∨
  c.toNat = 0x205f ∨ c.toNat = 0x3000

/-- Case folding used by `re.IGNORECASE` restricted to the characters the
three patterns can meet: ASCII letters fold to lower case and the two
accented capitals appearing in the patterns fold to their lower-case
forms. -/
def lowerCh (c : Char) : Char :=
  if 'A' ≤ c ∧ c ≤ 'Z' then Char.ofNat (c.toNat + 32)
  else if c = 'Ó' then 'ó'
  else if c = 'Í' then 'í'
  else c

/-- One element of a compiled pattern: a character class (matched
case-insensitively) or `\s+`. -/
inductive PatElem where
  | cls (cs : List Char)
  | ws
deriving DecidableEq

/-- A literal word of a pattern: one singleton class per character. -/
def lit (s : String) : List PatElem := s.data.map (fun c => PatElem.cls [c])

/-- The `\s+` element. -/
def wsP : List PatElem := [PatElem.ws]

/-- Does pattern character-class `pcs` match text character `c`
(case-insensitively)? -/
def chMatches (pcs : List Char) (c : Char) : Bool :=
  pcs.any (fun p => lowerCh p == lowerCh c)

/-- Match a pattern at the start of `s`; return the remaining suffix on
success.  `\s+` is consumed greedily, which agrees with the regex engine
because in every pattern of the source a `\s+` is followed by a letter
class, so no backtracking into the whitespace run can ever succeed. -/
def matchAt : List PatElem → Str → Option Str
  | [], s => some s
  | PatElem.cls _ :: _, [] => none
  | PatElem.cls pcs :: ps, c :: t =>
      if chMatches pcs c then matchAt ps t else none
  | PatElem.ws :: _, [] => none
  | PatElem.ws :: ps, c :: t =>
      if isPySpace c then matchAt ps (t.dropWhile isPySpace) else none

/-- `pattern.search(s)` as a Boolean: does the pattern match at some
position of `s`? -/
def searchPat (pat : List PatElem) : Str → Bool
  | [] => (matchAt pat []).isSome
  | c :: t => (matchAt pat (c :: t)).isSome || searchPat pat t

/-- `pattern.sub("", s)` with explicit fuel (for structural recursion;
the fuel only needs to exceed the string length, each step shortens the
string).  Scan left to right; on a match, emit nothing and resume after
the match; otherwise emit the character and advance.  The inner length
guard is dead code for the concrete patterns (they never match the
empty string); it only keeps the fuel invariant for arbitrary
patterns. -/
def subAllFuel (pat : List PatElem) : Nat → Str → Str
  | 0, s => s
  | _ + 1, [] => []
  | fuel + 1, c :: t =>
      match matchAt pat (c :: t) with
      | some rest =>
          if rest.length < t.length + 1 then subAllFuel pat fuel rest
          else c :: subAllFuel pat fuel t
      | none => c :: subAllFuel pat fuel t

/-- `pattern.sub("", s)`: delete every non-overlapping match, scanning
left to right and resuming after each match. -/
def subAll (pat : List PatElem) (s : Str) : Str :=
  subAllFuel pat (s.length + 1) s

/-- `str.strip()`: drop Python whitespace from both ends. -/
def stripWs (s : Str) : Str :=
  ((s.dropWhile isPySpace).reverse.dropWhile isPySpace).reverse

/-- `DocumentCleaner._normalize_whitespace`, i.e.
`re.sub(r"\s+", " ", text)`: every maximal whitespace run becomes a
single space.  Written so that the space emitted for a run is attached
to the run's last character, which yields the same string. -/
def normWs : Str → Str
  | [] => []
  | [c] => if isPySpace c then [' '] else [c]
  | c :: d :: t =>
      if isPySpace c then
        (if isPySpace d then normWs (d :: t) else ' ' :: normWs (d :: t))
      else c :: normWs (d :: t)

/-- `text.replace(" ", "")`: remove space characters (U+0020) only. -/
def removeSpaces (s : Str) : Str := s.filter (fun c => ¬ c = ' ')

/-- `PATTERN_ORGANO`: `ÓRGANO\s+DE\s+FISCALIZACI[ÓO]N\s+SUPERIOR`,
case-insensitive. -/
def PATTERN_ORGANO : List PatElem :=
  lit "ÓRGANO" ++ wsP ++ lit "DE" ++ wsP ++ lit "FISCALIZACI" ++
  [PatElem.cls ['Ó', 'O']] ++ lit "N" ++ wsP ++ lit "SUPERIOR"

/-- `PATTERN_DIRECCION`:
`DIRECCI[ÓO]N\s+DE\s+AUDITOR[IÍ]A\s+A\s+ENTES\s+ESTATALES`,
case-insensitive. -/
def PATTERN_DIRECCION : List PatElem :=
  lit "DIRECCI" ++ [PatElem.cls ['Ó', 'O']] ++ lit "N" ++ wsP ++ lit "DE" ++
  wsP ++ lit "AUDITOR" ++ [PatElem.cls ['I', 'Í']] ++ lit "A" ++ wsP ++
  lit "A" ++ wsP ++ lit "ENTES" ++ wsP ++ lit "ESTATALES"

/-- `PATTERN_ELABORO`: `Elabor[oó]`, case-insensitive. -/
def PATTERN_ELABORO : List PatElem :=
  lit "Elabor" ++ [PatElem.cls ['o', 'ó']]

/-- Does the ORG marker occur in `s`? -/
def orgMatch (s : Str) : Bool := searchPat PATTERN_ORGANO s

/-- Does the DIR marker occur in `s`? -/
def dirMatch (s : Str) : Bool := searchPat PATTERN_DIRECCION s

/-- Does the SENTINEL marker occur in `s`? -/
def elaboroMatch (s : Str) : Bool := searchPat PATTERN_ELABORO s

/-- The sentinel test the truncation pass applies to a paragraph text:
`PATTERN_ELABORO.search(p.text.replace(" ", ""))` (line 246) — note that
only space characters are removed, not all whitespace. -/
def sentMatch (s : Str) : Bool := elaboroMatch (removeSpaces s)

/-- ORG substitution, then DIR substitution, then trim — the redaction
applied both to body paragraphs (lines 167–169) and to text-box
paragraphs (lines 208–210). -/
def redact (s : Str) : Str :=
  stripWs (subAll PATTERN_DIRECCION (subAll PATTERN_ORGANO s))

/-! ### Body paragraphs and the two body passes -/

/-- A run: a span of literal text plus opaque formatting (`fmt` stands
for the run's `rPr`; the engine never reads it, it is only carried
along). -/
structure Run where
  text : Str
  fmt : Nat
deriving DecidableEq

/-- A body paragraph: an ordered list of runs. -/
structure Paragraph where
  runs : List Run
deriving DecidableEq

/-- `Paragraph.text` in python-docx: the concatenation of the run
texts. -/
def paraText (p : Paragraph) : Str :=
  p.runs.foldr (fun r acc => r.text ++ acc) []

/-- Lines 173–176: overwrite the first run's text with `r` and empty the
text of every other run, preserving each run's formatting.  (With no
runs nothing happens; the redaction pass can only reach that case with
an empty paragraph text, which no marker matches.) -/
def rewriteRuns (p : Paragraph) (r : Str) : Paragraph :=
  match p.runs with
  | [] => p
  | r0 :: rest => ⟨⟨r, r0.fmt⟩ :: rest.map (fun rn => ⟨[], rn.fmt⟩)⟩

/-- One iteration of the `_clean_institutional_paragraphs` loop body
(lines 163–183) on one paragraph: the paragraph after the iteration
(`none` when it is detached from its parent, line 181), the
`institutional_paragraphs_cleaned` increment and the
`paragraphs_removed` increment. -/
def cleanParaStep (p : Paragraph) : Option Paragraph × Nat × Nat :=
  let t := paraText p
  if orgMatch t || dirMatch t then
    let r := redact t
    if r.isEmpty then (none, 0, 1)
    else if p.runs.isEmpty then (some p, 0, 0)
    else (some (rewriteRuns p r), 1, 0)
  else (some p, 0, 0)

/-- The paragraph left by one loop iteration (`none` when detached). -/
def cleanParaOpt (p : Paragraph) : Option Paragraph := (cleanParaStep p).1

/-- `_clean_institutional_paragraphs` (lines 162–183): iterate over a
snapshot of the body paragraphs; for a marker-matching paragraph either
rewrite its runs (counting `institutional_paragraphs_cleaned`) or detach
it (counting `paragraphs_removed`).  Returns
`(new body, institutional_paragraphs_cleaned, paragraphs_removed)`. -/
def cleanParas : List Paragraph → List Paragraph × Nat × Nat
  | [] => ([], 0, 0)
  | p :: ps =>
      let st := cleanParaStep p
      let rec_ := cleanParas ps
      ((match st.1 with | some q => q :: rec_.1 | none => rec_.1),
       st.2.1 + rec_.2.1, st.2.2 + rec_.2.2)

/-- Lines 244–249: the index of the first paragraph whose space-stripped
text contains the SENTINEL marker (the `enumerate` loop with `break`). -/
def findSentinel : List Paragraph → Option Nat
  | [] => none
  | p :: ps =>
      if sentMatch (paraText p) then some 0
      else (findSentinel ps).map (· + 1)

/-- `_remove_signature_section` (lines 242–264): if a sentinel paragraph
exists at index `i`, detach paragraphs `len-1, …, i` (the reverse-order
deletion loop, which amounts to keeping the first `i` paragraphs), set
the flag and count `len - i` removals; otherwise do nothing.  Returns
`(new body, signature_section_removed, paragraphs removed)`. -/
def removeSig (body : List Paragraph) : List Paragraph × Bool × Nat :=
  match findSentinel body with
  | some i => (body.take i, true, body.length - i)
  | none => (body, false, 0)

/-! ### Text boxes -/

/-- A text-box paragraph: the list of its raw `<w:t>` descendant nodes,
each carrying `text` as in lxml (`none` models a `t` element whose
`text` attribute is `None`). -/
abbrev TPara := List (Option Str)

/-- The generator feeding `" ".join` on line 203: the
whitespace-normalized texts of the truthy (`if t.text`) nodes. -/
def truthyNorm (ts : TPara) : List Str :=
  ts.filterMap (fun o =>
    match o with
    | some t => if t.isEmpty then none else some (normWs t)
    | none => none)

/-- `" ".join`. -/
def joinSp : List Str → Str
  | [] => []
  | [x] => x
  | x :: xs => x ++ ' ' :: joinSp xs

/-- `_clean_textboxes` restricted to one text-box paragraph (lines
198–224).  Returns `(new text nodes, paragraph detached?,
textboxes_cleaned increment)`.  When the redacted candidate differs from
the joined normalized original, the first node receives the candidate,
the remaining nodes are emptied, the counter is incremented, and — when
the candidate is empty — the paragraph is additionally detached. -/
def cleanTBPara (ts : TPara) : TPara × Bool × Nat :=
  if ts.isEmpty then (ts, false, 0)
  else
    let original := joinSp (truthyNorm ts)
    let nuevo := redact original
    if nuevo = original then (ts, false, 0)
    else (some nuevo :: ts.tail.map (fun _ => some []), nuevo.isEmpty, 1)

/-- `_clean_textboxes` over all text-box paragraphs found by the
`txbxContent//p` query, keeping the non-detached ones.  Returns
`(surviving paragraphs, textboxes_cleaned)`. -/
def cleanTextboxes : List TPara → List TPara × Nat
  | [] => ([], 0)
  | ts :: rest =>
      let r := cleanTBPara ts
      let rec_ := cleanTextboxes rest
      (if r.2.1 then rec_.1 else r.1 :: rec_.1, r.2.2 + rec_.2)

/-! ### The header XML tree and `_remove_header_images`

The content of one section's header part is modelled as a first-child /
next-sibling tree: an `XNode` is a forest; `node id tag child sibling`
is an element with an identity (so that "the same element is still in
the tree" is expressible), its local tag name, the forest of its
children and the forest of its following siblings.  `xpath` queries and
in-place `parent.remove(element)` mutation over a snapshot node list are
translated into recursive tree transformations; the translation is
extensionally faithful to the lxml semantics, including the corner
cases:

* an element found by the snapshot query whose enclosing carrier has
  already been detached is still *processed* (its ancestor axis then
  ends at the detached carrier, which by construction contains no `tbl`
  above it, so the ancestor test gives the same answer) and still
  *counted*, while its removal is invisible in the final tree — hence
  the count functions keep recursing below a removed carrier;
* the `pict` snapshot is taken only after the whole drawing loop, so a
  `pict` inside a removed drawing is neither processed nor counted, and
  a `txbxContent` that sat inside a removed drawing no longer protects
  its enclosing `pict`. -/
inductive XNode where
  | nil : XNode
  | node (id : Nat) (tag : String) (child sibling : XNode) : XNode
deriving DecidableEq

/-- All element ids of a forest (document order). -/
def idsF : XNode → List Nat
  | .nil => []
  | .node i _ c s => i :: (idsF c ++ idsF s)

/-- Does the forest contain a `txbxContent` element?  Applied to the
child forest of a `pict` this is the line-134 test
`pict.xpath(".//*[local-name()='txbxContent']")`. -/
def anyTx : XNode → Bool
  | .nil => false
  | .node _ tag c s => tag = "txbxContent" || anyTx c || anyTx s

/-- The drawing loop (lines 111–122): remove every `drawing` element
that has no `tbl` ancestor; a `tbl` subtree is left untouched. -/
def pruneD : XNode → XNode
  | .nil => .nil
  | .node i tag c s =>
      if tag = "tbl" then .node i tag c (pruneD s)
      else if tag = "drawing" then pruneD s
      else .node i tag (pruneD c) (pruneD s)

/-- The number of `images_removed` increments of the drawing loop: every
`drawing` element with no `tbl` ancestor, including `drawing`s nested
inside an already-detached `drawing` (the snapshot list still contains
them and their truncated ancestor axis still has no `tbl`). -/
def countD : XNode → Nat
  | .nil => 0
  | .node _ tag c s =>
      if tag = "tbl" then countD s
      else (if tag = "drawing" then 1 else 0) + countD c + countD s

/-- The pict loop (lines 126–142) on the forest left by the drawing
loop: remove every `pict` element that has no `tbl` ancestor and does
not contain a `txbxContent`. -/
def pruneP : XNode → XNode
  | .nil => .nil
  | .node i tag c s =>
      if tag = "tbl" then .node i tag c (pruneP s)
      else if tag = "pict" && !anyTx c then pruneP s
      else .node i tag (pruneP c) (pruneP s)

/-- The number of `images_removed` increments of the pict loop (on the
forest left by the drawing loop). -/
def countP : XNode → Nat
  | .nil => 0
  | .node _ tag c s =>
      if tag = "tbl" then countP s
      else (if tag = "pict" && !anyTx c then 1 else 0) + countP c + countP s

/-- `_remove_header_images` for one section (lines 108–142): the drawing
loop, then the pict loop on the resulting tree.  Returns the new header
forest and the total `images_removed` increment. -/
def removeHeaderImages (f : XNode) : XNode × Nat :=
  (pruneP (pruneD f), countD f + countP (pruneD f))

/-! Selector and ancestor predicates over child-index paths, used to
state the claims about this pass.  A path `[i₀, i₁, …]` addresses the
`i₀`-th root of the forest, then the `i₁`-th child of that element, and
so on; the empty path addresses nothing (matching `.//*`, which yields
only proper descendants). -/

/-- The element addressed by a path in a forest. -/
def descAt : XNode → List Nat → Option XNode
  | .nil, _ => none
  | .node _ _ _ _, [] => none
  | .node i tag c s, [0] => some (.node i tag c s)
  | .node _ _ c _, 0 :: j :: π => descAt c (j :: π)
  | .node _ _ _ s, (k + 1) :: π => descAt s (k :: π)

/-- No element strictly above the addressed one (within the forest) is
tagged `tbl`: the negation of the `ancestor::*[local-name()='tbl']`
test. -/
def noTblOn : XNode → List Nat → Bool
  | .nil, _ => false
  | .node _ _ _ _, [] => true
  | .node _ _ _ _, [0] => true
  | .node _ tag c _, 0 :: j :: π => tag ≠ "tbl" && noTblOn c (j :: π)
  | .node _ _ _ s, (k + 1) :: π => noTblOn s (k :: π)

/-- The id of an element (0 for `nil`; only applied to `node`s). -/
def nodeId : XNode → Nat
  | .nil => 0
  | .node i _ _ _ => i

/-- The tag of an element. -/
def nodeTag : XNode → String
  | .nil => ""
  | .node _ tag _ _ => tag

/-- The child forest of an element. -/
def nodeChild : XNode → XNode
  | .nil => .nil
  | .node _ _ c _ => c

/-- A path addresses a drawing eligible for removal: the element exists,
is tagged `drawing`, and has no `tbl` ancestor. -/
def eligD (f : XNode) (π : List Nat) : Bool :=
  match descAt f π with
  | some n => nodeTag n = "drawing" && noTblOn f π
  | none => false

/-- A path addresses a pict eligible for removal: the element exists, is
tagged `pict`, has no `tbl` ancestor and no `txbxContent` inside. -/
def eligP (f : XNode) (π : List Nat) : Bool :=
  match descAt f π with
  | some n => nodeTag n = "pict" && !anyTx (nodeChild n) && noTblOn f π
  | none => false

/-- All paths of a forest, the roots carrying indices from `k` up. -/
def pathsAux : Nat → XNode → List (List Nat)
  | _, .nil => []
  | k, .node _ _ c s =>
      [k] :: ((pathsAux 0 c).map (k :: ·) ++ pathsAux (k + 1) s)

/-- All element paths of a forest. -/
def pathsF (f : XNode) : List (List Nat) := pathsAux 0 f

/-- The addressed element survives the drawing loop: walking down the
path, every element not yet below a `tbl` is not a `drawing` (a `tbl`
stops the walk — everything below it is preserved). -/
def survD : XNode → List Nat → Bool
  | .nil, _ => false
  | .node _ _ _ _, [] => true
  | .node _ tag _ _, [0] => if tag = "tbl" then true else !(tag = "drawing")
  | .node _ tag c _, 0 :: j :: π =>
      if tag = "tbl" then true
      else if tag = "drawing" then false
      else survD c (j :: π)
  | .node _ _ _ s, (k + 1) :: π => survD s (k :: π)

/-- The addressed element survives the pict loop. -/
def survP : XNode → List Nat → Bool
  | .nil, _ => false
  | .node _ _ _ _, [] => true
  | .node _ tag c _, [0] =>
      if tag = "tbl" then true else !(tag = "pict" && !anyTx c)
  | .node _ tag c _, 0 :: j :: π =>
      if tag = "tbl" then true
      else if tag = "pict" && !anyTx c then false
      else survP c (j :: π)
  | .node _ _ _ s, (k + 1) :: π => survP s (k :: π)

/-! ### Stats, the document, and the orchestrator -/

/-- `CleaningStats` (lines 26–46). -/
structure CleaningStats where
  images_removed : Nat := 0
  institutional_paragraphs_cleaned : Nat := 0
  textboxes_cleaned : Nat := 0
  signature_section_removed : Bool := false
  paragraphs_removed : Nat := 0
  errors : List Str := []
deriving DecidableEq

/-- A freshly constructed `CleaningStats()`. -/
def freshStats : CleaningStats := {}

/-- The loaded document, restricted to what the engine touches: the
header forest of each section, the footer forests (carried along
unchanged — the engine only reads their text boxes), the body
paragraphs, and the text-box paragraphs (`txbxContent//p` hits across
body, headers and footers, flattened into one list; body paragraph text
and text-box text nodes live in disjoint XML elements, so the two
redaction passes commute on this split representation). -/
structure Doc where
  headers : List XNode
  footers : List XNode
  body : List Paragraph
  textboxParas : List TPara
deriving DecidableEq

/-- `clean_document` (lines 271–337), successful path: image pruning on
every header, body-paragraph redaction, text-box redaction, trailing
truncation; returns the mutated document and the per-call stats. -/
def cleanDocument (d : Doc) : Doc × CleaningStats :=
  let hdrResults := d.headers.map removeHeaderImages
  let bodyPass := cleanParas d.body
  let tbPass := cleanTextboxes d.textboxParas
  let sigPass := removeSig bodyPass.1
  (⟨hdrResults.map Prod.fst, d.footers, sigPass.1, tbPass.1⟩,
   { images_removed := (hdrResults.map Prod.snd).sum
     institutional_paragraphs_cleaned := bodyPass.2.1
     textboxes_cleaned := tbPass.2
     signature_section_removed := sigPass.2.1
     paragraphs_removed := bodyPass.2.2 + sigPass.2.2
     errors := [] })

/-- One call on the shared singleton engine: line 298
(`self.stats = CleaningStats()`) discards whatever stats the previous
call left on the instance before any pass runs, so the prior state is
simply ignored. -/
def cleanDocumentCall (_prior : CleaningStats) (d : Doc) : Doc × CleaningStats :=
  cleanDocument d

/-- A sequence of calls on the singleton instance (`get_cleaner()`, lines
344–354), threading the instance's stats field from call to call and
collecting each call's returned stats. -/
def runBatch : CleaningStats → List Doc → List CleaningStats
  | _, [] => []
  | s, d :: ds =>
      let r := cleanDocumentCall s d
      r.2 :: runBatch r.2 ds

/-- `FileProcessingError` (exceptions.py lines 22–27): the stored
message is the constructor message with `": {filename}"` appended when a
filename is given. -/
structure FileProcessingError where
  message : Str
  filename : Option Str
deriving DecidableEq

/-- The `FileProcessingError(message, filename=...)` constructor. -/
def mkFileProcessingError (message : Str) (filename : Option Str) :
    FileProcessingError :=
  match filename with
  | some f => ⟨message ++ ": ".data ++ f, filename⟩
  | none => ⟨message, filename⟩

/-- `clean_document` including its `try`/`except` (lines 302–337), with
the three fallible steps the claim describes made explicit: `loadRes` is
the outcome of `Document(file_stream)`, `passEscape` is an exception
escaping a pass's own handlers (`str(e)` of it), `saveErr` an exception
from `doc.save(output)`.  Any of them aborts the call with a single
`FileProcessingError` wrapping
`"Error procesando documento {filename or 'sin nombre'}: {e}"`; only
the fully processed document is ever returned.  `wrapMsg` is the line
335 f-string. -/
def wrapMsg (filename : Option Str) (e : Str) : Str :=
  "Error procesando documento ".data ++
    (match filename with | some f => f | none => "sin nombre".data) ++
    ": ".data ++ e

def cleanDocumentWrapped (loadRes : Except Str Doc) (passEscape : Option Str)
    (saveErr : Option Str) (filename : Option Str) :
    Except FileProcessingError (Doc × CleaningStats) :=
  match loadRes with
  | .error e => .error (mkFileProcessingError (wrapMsg filename e) filename)
  | .ok d =>
      match passEscape with
      | some e => .error (mkFileProcessingError (wrapMsg filename e) filename)
      | none =>
          match saveErr with
          | some e => .error (mkFileProcessingError (wrapMsg filename e) filename)
          | none => .ok (cleanDocument d)

/-! ### Exception granularity of the per-pass handlers

Each model below takes an oracle `oracle : Nat → Option Str` giving, per
item or section identity, the `str(e)` of an exception raised while
processing that item (`none`: no exception).  An exception is modelled
as raised on entry to the item's processing, before any of its
mutations. -/

/-- Error-message head of `_clean_institutional_paragraphs` (line 186). -/
def parErrMsg : Str := "Error limpiando párrafo: ".data

/-- Error-message head of `_clean_textboxes` (line 227). -/
def tbErrMsg : Str := "Error limpiando textboxes: ".data

/-- Error-message head of `_remove_header_images` (line 145). -/
def imgErrMsg : Str := "Error eliminando imágenes de encabezado: ".data

/-- `_clean_institutional_paragraphs` with its per-paragraph
`try`/`except` (lines 163–188): a raising paragraph is left unchanged,
its message is recorded, and the loop continues with the next
paragraph.  Items carry an identity for the oracle.  Returns
`(paragraphs, institutional_paragraphs_cleaned, paragraphs_removed,
errors)`. -/
def cleanParasE (oracle : Nat → Option Str) :
    List (Nat × Paragraph) → List (Nat × Paragraph) × Nat × Nat × List Str
  | [] => ([], 0, 0, [])
  | (k, p) :: rest =>
      let rec_ := cleanParasE oracle rest
      match oracle k with
      | some m => ((k, p) :: rec_.1, rec_.2.1, rec_.2.2.1, (parErrMsg ++ m) :: rec_.2.2.2)
      | none =>
          let st := cleanParaStep p
          ((match st.1 with | some q => (k, q) :: rec_.1 | none => rec_.1),
           st.2.1 + rec_.2.1, st.2.2 + rec_.2.2.1, rec_.2.2.2)

/-- `_clean_textboxes` with its single container-level `try`/`except`
(lines 197–229): an exception while processing one text-box paragraph
aborts the whole loop — the already-processed prefix keeps its
mutations, one message is recorded, and every remaining paragraph of the
container is left unprocessed.  Returns `(paragraphs (with detached ones
dropped), textboxes_cleaned, errors)`. -/
def cleanTextboxesE (oracle : Nat → Option Str) :
    List (Nat × TPara) → List (Nat × TPara) × Nat × List Str
  | [] => ([], 0, [])
  | (k, ts) :: rest =>
      match oracle k with
      | some m => ((k, ts) :: rest, 0, [tbErrMsg ++ m])
      | none =>
          let r := cleanTBPara ts
          let rec_ := cleanTextboxesE oracle rest
          (if r.2.1 then rec_.1 else (k, r.1) :: rec_.1, r.2.2 + rec_.2.1, rec_.2.2)

/-- `_remove_header_images` with its per-section `try`/`except` (lines
108–147): an exception while processing a section's header region
records one message and continues with the next section; the remaining
carriers of the raising section are skipped.  Returns
`(headers, images_removed, errors)`. -/
def removeHeaderImagesE (oracle : Nat → Option Str) :
    List (Nat × XNode) → List (Nat × XNode) × Nat × List Str
  | [] => ([], 0, [])
  | (k, f) :: rest =>
      let rec_ := removeHeaderImagesE oracle rest
      match oracle k with
      | some m => ((k, f) :: rec_.1, rec_.2.1, (imgErrMsg ++ m) :: rec_.2.2)
      | none =>
          let r := removeHeaderImages f
          ((k, r.1) :: rec_.1, r.2 + rec_.2.1, rec_.2.2)

/-- Following the words of the specification (§4.5): the SENTINEL test
on a paragraph text "with *all* whitespace removed (not just
normalized)".  Stated only to compare with the code's space-only
`sentMatch`. -/
def sentMatchSpecAllWs (s : Str) : Bool :=
  elaboroMatch (s.filter (fun c => ¬ isPySpace c))

/-! ## Theorems -/

/-- C9: one call never depends on the stats the previous call left on
the singleton, and a batch of calls on the shared instance yields for
every document exactly the stats of a fresh, isolated call: stats are
reset at entry (line 298), never accumulated. -/
theorem C9_stats_reset_per_call :
    (∀ s₁ s₂ : CleaningStats, ∀ d : Doc,
       cleanDocumentCall s₁ d = cleanDocumentCall s₂ d) ∧
    (∀ (prior : CleaningStats) (ds : List Doc),
       runBatch prior ds = ds.map (fun d => (cleanDocument d).2)) := by
  refine ⟨fun s₁ s₂ d => rfl, fun prior ds => ?_⟩
  induction ds generalizing prior with
  | nil => rfl
  | cons d ds ih => simp [runBatch, cleanDocumentCall, ih]

/-- C8: whenever loading fails, a pass-level exception escapes, or
serialization fails, `clean_document` surfaces a single
`FileProcessingError` whose message contains the filename when one is
known, and no output document is returned. -/
theorem C8_fatal_error_contract :
    ∀ (loadRes : Except Str Doc) (passEscape saveErr filename : Option Str),
      ((∀ d, loadRes ≠ .ok d) ∨ passEscape ≠ none ∨ saveErr ≠ none) →
      ∃ err : FileProcessingError,
        cleanDocumentWrapped loadRes passEscape saveErr filename = .error err ∧
        err.filename = filename ∧
        (∀ f, filename = some f → f <:+: err.message) := by
  intro loadRes passEscape saveErr filename h
  have infixOf : ∀ (e : Str),
      (∀ f, filename = some f →
        f <:+: (mkFileProcessingError (wrapMsg filename e) filename).message) := by
    intro e f hf
    subst hf
    refine ⟨"Error procesando documento ".data, ?_⟩
    refine ⟨": ".data ++ e ++ ": ".data ++ f, ?_⟩
    simp [mkFileProcessingError, wrapMsg]
  have fnOf : ∀ (e : Str),
      (mkFileProcessingError (wrapMsg filename e) filename).filename = filename := by
    intro e; cases filename <;> rfl
  match loadRes with
  | .error e => exact ⟨_, rfl, fnOf e, infixOf e⟩
  | .ok d =>
    match passEscape with
    | some e => exact ⟨_, rfl, fnOf e, infixOf e⟩
    | none =>
      match saveErr with
      | some e => exact ⟨_, rfl, fnOf e, infixOf e⟩
      | none =>
        rcases h with h | h | h
        · exact absurd rfl (h d)
        · exact absurd rfl h
        · exact absurd rfl h

/-- Witness for C8 at a concrete failing load with a known filename. -/
theorem C8_witness :
    cleanDocumentWrapped (Except.error "bad zip".data) none none
        (some "acta.docx".data) =
      .error (mkFileProcessingError
        (wrapMsg (some "acta.docx".data) "bad zip".data)
        (some "acta.docx".data)) ∧
    (mkFileProcessingError (wrapMsg (some "acta.docx".data) "bad zip".data)
      (some "acta.docx".data)).filename = some "acta.docx".data ∧
    "acta.docx".data <:+: (mkFileProcessingError
      (wrapMsg (some "acta.docx".data) "bad zip".data)
      (some "acta.docx".data)).message := by
  obtain ⟨err, h1, h2, h3⟩ :=
    C8_fatal_error_contract (Except.error "bad zip".data) none none
      (some "acta.docx".data) (Or.inl fun d hd => by cases hd)
  have herr : err = mkFileProcessingError
      (wrapMsg (some "acta.docx".data) "bad zip".data)
      (some "acta.docx".data) := by
    have hcomp : cleanDocumentWrapped (Except.error "bad zip".data) none none
        (some "acta.docx".data) =
      Except.error (mkFileProcessingError
        (wrapMsg (some "acta.docx".data) "bad zip".data)
        (some "acta.docx".data)) := rfl
    rw [h1] at hcomp
    exact (Except.error.inj hcomp)
  subst herr
  exact ⟨h1, h2, h3 _ rfl⟩

/-! ### Support lemmas for the body-paragraph pass -/

theorem orgMatch_nil : orgMatch [] = false := by decide

theorem dirMatch_nil : dirMatch [] = false := by decide

theorem paraText_runs_nil (p : Paragraph) (h : p.runs = []) : paraText p = [] := by
  simp [paraText, h]

theorem runs_ne_nil_of_match (p : Paragraph)
    (h : (orgMatch (paraText p) || dirMatch (paraText p)) = true) :
    p.runs.isEmpty = false := by
  cases hr : p.runs with
  | nil =>
      rw [paraText_runs_nil p hr, orgMatch_nil, dirMatch_nil] at h
      cases h
  | cons a l => rfl

theorem cleanParas_append (xs ys : List Paragraph) :
    cleanParas (xs ++ ys) =
      ((cleanParas xs).1 ++ (cleanParas ys).1,
       (cleanParas xs).2.1 + (cleanParas ys).2.1,
       (cleanParas xs).2.2 + (cleanParas ys).2.2) := by
  induction xs with
  | nil => simp [cleanParas]
  | cons p xs ih =>
      simp only [List.cons_append, cleanParas, ih]
      cases h : (cleanParaStep p).1 with
      | none => simp [Prod.ext_iff, ih, Nat.add_assoc]
      | some q => simp [Prod.ext_iff, ih, Nat.add_assoc]

/-- C2 (confirmed): for a body paragraph matching ORG or DIR, with
`r` the ORG-then-DIR-substituted, trimmed text: if `r` is non-empty the
paragraph is kept with the first run's text overwritten by `r`, the
other runs' texts emptied and every run's formatting preserved, and
`institutional_paragraphs_cleaned` grows by exactly one; if `r` is empty
the paragraph is dropped from the body and `paragraphs_removed` grows by
exactly one. -/
theorem C2_institutional_redaction (xs ys : List Paragraph) (p : Paragraph)
    (h : (orgMatch (paraText p) || dirMatch (paraText p)) = true) :
    ((redact (paraText p)).isEmpty = false →
       cleanParas (xs ++ p :: ys) =
         ((cleanParas xs).1 ++
            rewriteRuns p (redact (paraText p)) :: (cleanParas ys).1,
          (cleanParas xs).2.1 + (cleanParas ys).2.1 + 1,
          (cleanParas xs).2.2 + (cleanParas ys).2.2) ∧
       (rewriteRuns p (redact (paraText p))).runs.map Run.fmt =
         p.runs.map Run.fmt ∧
       (rewriteRuns p (redact (paraText p))).runs.map Run.text =
         redact (paraText p) :: p.runs.tail.map (fun _ => [])) ∧
    ((redact (paraText p)).isEmpty = true →
       cleanParas (xs ++ p :: ys) =
         ((cleanParas xs).1 ++ (cleanParas ys).1,
          (cleanParas xs).2.1 + (cleanParas ys).2.1,
          (cleanParas xs).2.2 + (cleanParas ys).2.2 + 1)) := by
  have hruns := runs_ne_nil_of_match p h
  have happ := cleanParas_append xs (p :: ys)
  constructor
  · intro hr
    have hstep : cleanParaStep p = (some (rewriteRuns p (redact (paraText p))), 1, 0) := by
      simp [cleanParaStep, h, hr, hruns]
    constructor
    · rw [happ]
      simp only [cleanParas, hstep]
      simp [Prod.ext_iff]
      omega
    · cases hl : p.runs with
      | nil => rw [hl] at hruns; cases hruns
      | cons r0 rest =>
          constructor
          · simp only [rewriteRuns, hl, List.map_cons, List.map_map]
            rw [show (Run.fmt ∘ fun rn : Run => ({ text := [], fmt := rn.fmt } : Run)) =
              Run.fmt from rfl]
          · simp only [rewriteRuns, hl, List.map_cons, List.map_map, List.tail_cons]
            rw [show (Run.text ∘ fun rn : Run => ({ text := [], fmt := rn.fmt } : Run)) =
              (fun _ => ([] : Str)) from rfl]
  · intro hr
    have hstep : cleanParaStep p = (none, 0, 1) := by
      simp [cleanParaStep, h, hr]
    rw [happ]
    simp only [cleanParas, hstep]
    simp [Prod.ext_iff]
    omega

/-- Witness for C2: a paragraph of two runs whose text carries the ORG
marker plus residual text, inside a one-paragraph context on each side.
The redaction keeps the residue in the first run, empties the second,
and counts one cleaned paragraph. -/
theorem C2_witness :
    ((redact (paraText ⟨[⟨"ÓRGANO DE FISCALIZACIÓN SUPERIOR ".data, 3⟩,
        ⟨"Acta 7".data, 4⟩]⟩)).isEmpty = false →
      cleanParas ([⟨[⟨"Hola".data, 1⟩]⟩] ++
          ⟨[⟨"ÓRGANO DE FISCALIZACIÓN SUPERIOR ".data, 3⟩,
            ⟨"Acta 7".data, 4⟩]⟩ :: [⟨[⟨"Fin".data, 2⟩]⟩]) =
        ((cleanParas [⟨[⟨"Hola".data, 1⟩]⟩]).1 ++
           rewriteRuns ⟨[⟨"ÓRGANO DE FISCALIZACIÓN SUPERIOR ".data, 3⟩,
             ⟨"Acta 7".data, 4⟩]⟩
             (redact (paraText ⟨[⟨"ÓRGANO DE FISCALIZACIÓN SUPERIOR ".data, 3⟩,
               ⟨"Acta 7".data, 4⟩]⟩)) ::
           (cleanParas [⟨[⟨"Fin".data, 2⟩]⟩]).1,
         (cleanParas [⟨[⟨"Hola".data, 1⟩]⟩]).2.1 +
           (cleanParas [⟨[⟨"Fin".data, 2⟩]⟩]).2.1 + 1,
         (cleanParas [⟨[⟨"Hola".data, 1⟩]⟩]).2.2 +
           (cleanParas [⟨[⟨"Fin".data, 2⟩]⟩]).2.2) ∧
      (rewriteRuns ⟨[⟨"ÓRGANO DE FISCALIZACIÓN SUPERIOR ".data, 3⟩,
          ⟨"Acta 7".data, 4⟩]⟩
          (redact (paraText ⟨[⟨"ÓRGANO DE FISCALIZACIÓN SUPERIOR ".data, 3⟩,
            ⟨"Acta 7".data, 4⟩]⟩))).runs.map Run.fmt =
        (⟨[⟨"ÓRGANO DE FISCALIZACIÓN SUPERIOR ".data, 3⟩,
           ⟨"Acta 7".data, 4⟩]⟩ : Paragraph).runs.map Run.fmt ∧
      (rewriteRuns ⟨[⟨"ÓRGANO DE FISCALIZACIÓN SUPERIOR ".data, 3⟩,
          ⟨"Acta 7".data, 4⟩]⟩
          (redact (paraText ⟨[⟨"ÓRGANO DE FISCALIZACIÓN SUPERIOR ".data, 3⟩,
            ⟨"Acta 7".data, 4⟩]⟩))).runs.map Run.text =
        redact (paraText ⟨[⟨"ÓRGANO DE FISCALIZACIÓN SUPERIOR ".data, 3⟩,
            ⟨"Acta 7".data, 4⟩]⟩) ::
          (⟨[⟨"ÓRGANO DE FISCALIZACIÓN SUPERIOR ".data, 3⟩,
             ⟨"Acta 7".data, 4⟩]⟩ : Paragraph).runs.tail.map (fun _ => [])) ∧
    ((redact (paraText ⟨[⟨"ÓRGANO DE FISCALIZACIÓN SUPERIOR ".data, 3⟩,
        ⟨"Acta 7".data, 4⟩]⟩)).isEmpty = true →
      cleanParas ([⟨[⟨"Hola".data, 1⟩]⟩] ++
          ⟨[⟨"ÓRGANO DE FISCALIZACIÓN SUPERIOR ".data, 3⟩,
            ⟨"Acta 7".data, 4⟩]⟩ :: [⟨[⟨"Fin".data, 2⟩]⟩]) =
        ((cleanParas [⟨[⟨"Hola".data, 1⟩]⟩]).1 ++
           (cleanParas [⟨[⟨"Fin".data, 2⟩]⟩]).1,
         (cleanParas [⟨[⟨"Hola".data, 1⟩]⟩]).2.1 +
           (cleanParas [⟨[⟨"Fin".data, 2⟩]⟩]).2.1,
         (cleanParas [⟨[⟨"Hola".data, 1⟩]⟩]).2.2 +
           (cleanParas [⟨[⟨"Fin".data, 2⟩]⟩]).2.2 + 1)) :=
  C2_institutional_redaction [⟨[⟨"Hola".data, 1⟩]⟩] [⟨[⟨"Fin".data, 2⟩]⟩]
    ⟨[⟨"ÓRGANO DE FISCALIZACIÓN SUPERIOR ".data, 3⟩, ⟨"Acta 7".data, 4⟩]⟩
    (by decide)

/-- C6 (confirmed): for a text-box paragraph with at least one raw text
node, with `original` the single-space join of the individually
normalized non-empty node texts and `candidate` its trimmed
ORG-then-DIR substitution: exactly when `candidate ≠ original`, the
first node is overwritten with `candidate`, the remaining nodes are
emptied and `textboxes_cleaned` is incremented, the paragraph being
additionally detached exactly when `candidate` is empty; when
`candidate = original` nothing changes and nothing is counted.  In
particular a whitespace-only difference with no marker match still
counts as cleaned. -/
theorem C6_textbox_redaction (ts : TPara) (hne : ts ≠ []) :
    (redact (joinSp (truthyNorm ts)) ≠ joinSp (truthyNorm ts) →
       cleanTBPara ts =
         (some (redact (joinSp (truthyNorm ts))) ::
            ts.tail.map (fun _ => some []),
          (redact (joinSp (truthyNorm ts))).isEmpty, 1)) ∧
    (redact (joinSp (truthyNorm ts)) = joinSp (truthyNorm ts) →
       cleanTBPara ts = (ts, false, 0)) := by
  have hempty : ts.isEmpty = false := by
    cases ts with
    | nil => exact absurd rfl hne
    | cons a l => rfl
  constructor
  · intro hdiff
    simp [cleanTBPara, hempty, hdiff]
  · intro heq
    simp [cleanTBPara, hempty, heq]

/-- Witness for C6: a single text node `" X "` — no marker matches, yet
trimming makes the candidate differ from the normalized original, so the
paragraph is rewritten and counted as cleaned (the spec's accepted
whitespace-only corner case), and symmetric coverage of the unchanged
branch. -/
theorem C6_witness :
    (redact (joinSp (truthyNorm [some " X ".data])) ≠
       joinSp (truthyNorm [some " X ".data]) →
     cleanTBPara [some " X ".data] =
       (some (redact (joinSp (truthyNorm [some " X ".data]))) ::
          ([some " X ".data] : TPara).tail.map (fun _ => some []),
        (redact (joinSp (truthyNorm [some " X ".data]))).isEmpty, 1)) ∧
    (redact (joinSp (truthyNorm [some " X ".data])) =
       joinSp (truthyNorm [some " X ".data]) →
     cleanTBPara [some " X ".data] = ([some " X ".data], false, 0)) :=
  C6_textbox_redaction [some " X ".data] (by decide)

/-! ### Support lemmas for the truncation pass -/

theorem findSentinel_some (body : List Paragraph) (i : Nat)
    (h : findSentinel body = some i) :
    i < body.length ∧
    (∀ p, body.get? i = some p → sentMatch (paraText p) = true) ∧
    (∀ k q, k < i → body.get? k = some q → sentMatch (paraText q) = false) := by
  induction body generalizing i with
  | nil => cases h
  | cons p ps ih =>
      by_cases hp : sentMatch (paraText p) = true
      · simp [findSentinel, hp] at h
        subst h
        exact ⟨Nat.succ_pos _, fun q hq => by simp at hq; rw [← hq]; exact hp,
               fun k q hk => by omega⟩
      · simp [findSentinel, hp] at h
        obtain ⟨j, hj, rfl⟩ := h
        obtain ⟨h1, h2, h3⟩ := ih j hj
        refine ⟨by simpa using h1, ?_, ?_⟩
        · intro q hq
          exact h2 q (by simpa using hq)
        · intro k q hk hq
          cases k with
          | zero =>
              simp at hq
              rw [← hq]
              simpa using hp
          | succ k =>
              exact h3 k q (by omega) (by simpa using hq)

theorem findSentinel_none (body : List Paragraph)
    (h : findSentinel body = none) :
    ∀ p ∈ body, sentMatch (paraText p) = false := by
  induction body with
  | nil => intro p hp; cases hp
  | cons q ps ih =>
      intro p hp
      by_cases hq : sentMatch (paraText q) = true
      · simp [findSentinel, hq] at h
      · simp [findSentinel, hq] at h
        cases hp with
        | head => simpa using hq
        | tail _ hp => exact ih h p hp

/-- C3 counterexample: the paragraph `"Elabor\tó"` matches the SENTINEL
pattern once *all* whitespace is removed (the claim's condition), yet the
pass — which strips only space characters before matching (line 246,
`replace(" ", "")`) — finds no sentinel: it truncates nothing, leaves
the flag false and removes zero paragraphs, contradicting the claimed
postcondition (truncation at index 0, flag set, one removal). -/
theorem C3_counterexample :
    sentMatchSpecAllWs (paraText ⟨[⟨"Elabor\tó".data, 0⟩]⟩) = true ∧
    sentMatch (paraText ⟨[⟨"Elabor\tó".data, 0⟩]⟩) = false ∧
    removeSig [⟨[⟨"Elabor\tó".data, 0⟩]⟩] =
      ([⟨[⟨"Elabor\tó".data, 0⟩]⟩], false, 0) := by decide

/-- C3 as amended: with the sentinel test taken — as the code takes
it — on the paragraph text with all *space characters (U+0020)* removed
(not all whitespace), the truncation postcondition holds: if `i` is the
first sentinel index, exactly the paragraphs from `i` through the end
are dropped, the flag is set and `length - i` removals are counted; if
no paragraph passes the test, the pass changes nothing, the flag stays
false and zero paragraphs are removed. -/
theorem C3_truncation_amended (body : List Paragraph) :
    (∀ i, findSentinel body = some i →
       removeSig body = (body.take i, true, body.length - i) ∧
       i < body.length ∧
       (∀ p, body.get? i = some p → sentMatch (paraText p) = true) ∧
       (∀ k q, k < i → body.get? k = some q →
          sentMatch (paraText q) = false)) ∧
    (findSentinel body = none →
       removeSig body = (body, false, 0) ∧
       ∀ p ∈ body, sentMatch (paraText p) = false) := by
  constructor
  · intro i hi
    obtain ⟨h1, h2, h3⟩ := findSentinel_some body i hi
    exact ⟨by simp [removeSig, hi], h1, h2, h3⟩
  · intro hn
    exact ⟨by simp [removeSig, hn], findSentinel_none body hn⟩

/-- Witness for C3 as amended: a three-paragraph body with the sentinel
(`"Elaboró: A"`, space-insensitively) at index 1 — the pass keeps
exactly the first paragraph, sets the flag and counts two removals. -/
theorem C3_witness :
    removeSig [⟨[⟨"Hola".data, 0⟩]⟩, ⟨[⟨"Elaboró: A".data, 1⟩]⟩,
        ⟨[⟨"Revisó: B".data, 2⟩]⟩] =
      (([⟨[⟨"Hola".data, 0⟩]⟩, ⟨[⟨"Elaboró: A".data, 1⟩]⟩,
         ⟨[⟨"Revisó: B".data, 2⟩]⟩] : List Paragraph).take 1, true,
       ([⟨[⟨"Hola".data, 0⟩]⟩, ⟨[⟨"Elaboró: A".data, 1⟩]⟩,
         ⟨[⟨"Revisó: B".data, 2⟩]⟩] : List Paragraph).length - 1) :=
  ((C3_truncation_amended [⟨[⟨"Hola".data, 0⟩]⟩, ⟨[⟨"Elaboró: A".data, 1⟩]⟩,
      ⟨[⟨"Revisó: B".data, 2⟩]⟩]).1 1 (by decide)).1

/-! ### Support lemmas for body preservation (C1) -/

theorem cleanParas_fst (l : List Paragraph) :
    (cleanParas l).1 = l.filterMap cleanParaOpt := by
  induction l with
  | nil => rfl
  | cons p ps ih =>
      simp only [cleanParas, List.filterMap_cons]
      cases h : (cleanParaStep p).1 <;> simp [cleanParaOpt, h, ih]

theorem removeSig_cons_not (p : Paragraph) (l : List Paragraph)
    (hp : sentMatch (paraText p) = false) :
    removeSig (p :: l) =
      (p :: (removeSig l).1, (removeSig l).2.1, (removeSig l).2.2) := by
  simp only [removeSig, findSentinel, hp]
  cases h : findSentinel l with
  | none => simp
  | some i => simp [List.take_succ_cons, Nat.succ_sub_succ]

theorem body_preserved (body : List Paragraph) :
    ∀ (j : Nat) (p : Paragraph),
      body.get? j = some p →
      orgMatch (paraText p) = false → dirMatch (paraText p) = false →
      sentMatch (paraText p) = false →
      (∀ k q q', k < j → body.get? k = some q → cleanParaOpt q = some q' →
         sentMatch (paraText q') = false) →
      p ∈ (removeSig (body.filterMap cleanParaOpt)).1 := by
  induction body with
  | nil => intro j p h; cases h
  | cons q rest ih =>
      intro j p hget horg hdir hsent hbefore
      cases j with
      | zero =>
          have hqp : q = p := by simpa using hget
          subst hqp
          have hq : cleanParaOpt q = some q := by
            simp [cleanParaOpt, cleanParaStep, horg, hdir]
          rw [List.filterMap_cons, hq, removeSig_cons_not q _ hsent]
          exact List.mem_cons_self _ _
      | succ j =>
          have hget' : rest.get? j = some p := by simpa using hget
          have hbefore' : ∀ k q1 q1', k < j → rest.get? k = some q1 →
              cleanParaOpt q1 = some q1' → sentMatch (paraText q1') = false := by
            intro k q1 q1' hk hg hc
            exact hbefore (k + 1) q1 q1' (by omega) (by simpa using hg) hc
          cases hcq : cleanParaOpt q with
          | none =>
              rw [List.filterMap_cons, hcq]
              exact ih j p hget' horg hdir hsent hbefore'
          | some q' =>
              have hq'sent : sentMatch (paraText q') = false :=
                hbefore 0 q q' (Nat.succ_pos j) rfl hcq
              rw [List.filterMap_cons, hcq, removeSig_cons_not q' _ hq'sent]
              exact List.mem_cons_of_mem _ (ih j p hget' horg hdir hsent hbefore')

/-- C1 counterexample: in the two-paragraph body
`["Elab ÓRGANO DE FISCALIZACIÓN SUPERIOR oró", "Hello"]` no paragraph
matches the SENTINEL pattern (under either the raw or the
space-stripped reading) and `"Hello"` matches no pattern at all, so the
claim promises `"Hello"` survives with identical text.  But redacting
the first paragraph leaves `"Elab  oró"`, whose space-stripped form is
`"Elaboró"` — a sentinel synthesized by the redaction pass — so the
truncation pass removes everything, including `"Hello"`. -/
theorem C1_counterexample :
    (orgMatch (paraText ⟨[⟨"Hello".data, 1⟩]⟩) = false ∧
     dirMatch (paraText ⟨[⟨"Hello".data, 1⟩]⟩) = false ∧
     elaboroMatch (paraText ⟨[⟨"Hello".data, 1⟩]⟩) = false ∧
     sentMatch (paraText ⟨[⟨"Hello".data, 1⟩]⟩) = false) ∧
    (elaboroMatch (paraText
       ⟨[⟨"Elab ÓRGANO DE FISCALIZACIÓN SUPERIOR oró".data, 0⟩]⟩) = false ∧
     sentMatch (paraText
       ⟨[⟨"Elab ÓRGANO DE FISCALIZACIÓN SUPERIOR oró".data, 0⟩]⟩) = false) ∧
    (⟨[⟨"Hello".data, 1⟩]⟩ : Paragraph) ∉
      (cleanDocument ⟨[], [],
        [⟨[⟨"Elab ÓRGANO DE FISCALIZACIÓN SUPERIOR oró".data, 0⟩]⟩,
         ⟨[⟨"Hello".data, 1⟩]⟩], []⟩).1.body := by decide

/-- C1 as amended: a body paragraph that matches neither ORG, DIR nor
SENTINEL survives `clean_document` with byte-identical text provided
every paragraph *before* it is still sentinel-free *after* the
institutional-redaction pass (the counterexample shows redaction can
synthesize a sentinel in an earlier paragraph; when it does not, the
original claim's conclusion holds). -/
theorem C1_body_preservation_amended (d : Doc) (j : Nat) (p : Paragraph)
    (hget : d.body.get? j = some p)
    (horg : orgMatch (paraText p) = false)
    (hdir : dirMatch (paraText p) = false)
    (hsent : sentMatch (paraText p) = false)
    (hbefore : ∀ k q q', k < j → d.body.get? k = some q →
       cleanParaOpt q = some q' → sentMatch (paraText q') = false) :
    p ∈ (cleanDocument d).1.body := by
  have hbody : (cleanDocument d).1.body = (removeSig ((cleanParas d.body).1)).1 := rfl
  rw [hbody, cleanParas_fst]
  exact body_preserved d.body j p hget horg hdir hsent hbefore

/-- Witness for C1 as amended: `"Hello"` at index 1 behind an
ORG-bearing paragraph whose redacted text is *not* a sentinel — it
survives the full pipeline. -/
theorem C1_witness :
    (⟨[⟨"Hello".data, 1⟩]⟩ : Paragraph) ∈
      (cleanDocument ⟨[], [],
        [⟨[⟨"ÓRGANO DE FISCALIZACIÓN SUPERIOR Acta".data, 0⟩]⟩,
         ⟨[⟨"Hello".data, 1⟩]⟩], []⟩).1.body :=
  by
  refine C1_body_preservation_amended
    ⟨[], [],
      [⟨[⟨"ÓRGANO DE FISCALIZACIÓN SUPERIOR Acta".data, 0⟩]⟩,
       ⟨[⟨"Hello".data, 1⟩]⟩], []⟩ 1 ⟨[⟨"Hello".data, 1⟩]⟩
    (by decide) (by decide) (by decide) (by decide) ?_
  intro k q q' hk hg hc
  have hk0 : k = 0 := by omega
  subst hk0
  have hq := Option.some.inj hg
  rw [← hq] at hc
  have hcomp : cleanParaOpt ⟨[⟨"ÓRGANO DE FISCALIZACIÓN SUPERIOR Acta".data, 0⟩]⟩ =
      some (rewriteRuns ⟨[⟨"ÓRGANO DE FISCALIZACIÓN SUPERIOR Acta".data, 0⟩]⟩
        (redact (paraText ⟨[⟨"ÓRGANO DE FISCALIZACIÓN SUPERIOR Acta".data, 0⟩]⟩))) := by
    decide
  rw [hcomp] at hc
  rw [← Option.some.inj hc]
  decide

/-! ### Support lemmas for idempotence (C5) -/

theorem subAllFuel_id (pat : List PatElem) :
    ∀ (fuel : Nat) (s : Str), searchPat pat s = false →
      subAllFuel pat fuel s = s := by
  intro fuel
  induction fuel with
  | zero => intro s _; rfl
  | succ fuel ih =>
      intro s h
      cases s with
      | nil => rfl
      | cons c t =>
          have h' : (matchAt pat (c :: t)).isSome = false ∧
              searchPat pat t = false := by
            simpa [searchPat] using h
          cases hm : matchAt pat (c :: t) with
          | some r => rw [hm] at h'; simp at h'
          | none => simp [subAllFuel, hm, ih t h'.2]

theorem subAll_id (pat : List PatElem) (s : Str)
    (h : searchPat pat s = false) : subAll pat s = s :=
  subAllFuel_id pat (s.length + 1) s h

/-- Head and trailing characters of a string, as whitespace-freeness
predicates. -/
def headOK (l : Str) : Prop := ∀ c, l.head? = some c → isPySpace c = false

def lastOK (l : Str) : Prop := ∀ c, l.getLast? = some c → isPySpace c = false

theorem headOK_dropWhile (l : Str) : headOK (l.dropWhile isPySpace) := by
  induction l with
  | nil => intro c hc; cases hc
  | cons a t ih =>
      intro c hc
      by_cases ha : isPySpace a = true
      · rw [List.dropWhile_cons, if_pos ha] at hc
        exact ih c hc
      · rw [List.dropWhile_cons, if_neg ha] at hc
        cases hc
        simpa using ha

theorem dropWhile_eq_self_of_headOK (l : Str) (h : headOK l) :
    l.dropWhile isPySpace = l := by
  cases l with
  | nil => rfl
  | cons a t =>
      have := h a rfl
      simp [List.dropWhile_cons, this]

theorem getLast?_cons_ne_nil {α : Type} (a : α) (l : List α) (h : l ≠ []) :
    (a :: l).getLast? = l.getLast? := by
  cases l with
  | nil => exact absurd rfl h
  | cons b t => simp [List.getLast?_cons_cons]

theorem stripWs_eq_self (s : Str) (h1 : headOK s) (h2 : lastOK s) :
    stripWs s = s := by
  unfold stripWs
  rw [dropWhile_eq_self_of_headOK s h1]
  have hrev : headOK s.reverse := by
    intro c hc
    rw [List.head?_reverse] at hc
    exact h2 c hc
  rw [dropWhile_eq_self_of_headOK s.reverse hrev, List.reverse_reverse]

theorem headOK_stripWs (s : Str) : headOK (stripWs s) := by
  intro c hc
  have hpre : stripWs s <+: s.dropWhile isPySpace := by
    simpa [List.rdropWhile, stripWs] using
      List.rdropWhile_prefix isPySpace (s.dropWhile isPySpace)
  obtain ⟨t, ht⟩ := hpre
  cases hz : stripWs s with
  | nil => rw [hz] at hc; cases hc
  | cons d w =>
      rw [hz] at hc ht
      have hd : d = c := by simpa using hc
      subst hd
      have hcc : (s.dropWhile isPySpace).head? = some d := by
        rw [← ht]; rfl
      exact headOK_dropWhile s d hcc

theorem lastOK_stripWs (s : Str) : lastOK (stripWs s) := by
  intro c hc
  unfold stripWs at hc
  rw [List.getLast?_reverse] at hc
  exact headOK_dropWhile _ c hc

theorem normWs_ne_nil (s : Str) (h : s ≠ []) : normWs s ≠ [] := by
  match s with
  | [c] => by_cases hc : isPySpace c = true <;> simp [normWs, hc]
  | c :: d :: t =>
      have hrec : normWs (d :: t) ≠ [] := normWs_ne_nil (d :: t) (by simp)
      by_cases hc : isPySpace c = true
      · by_cases hd : isPySpace d = true
        · rw [show normWs (c :: d :: t) = normWs (d :: t) by
            simp [normWs, hc, hd]]
          exact hrec
        · simp [normWs, hc, hd]
      · simp [normWs, hc]

theorem headOK_normWs (s : Str) (h : headOK s) : headOK (normWs s) := by
  match s with
  | [] => intro c hc; cases hc
  | [c] =>
      have := h c rfl
      intro e he
      simp [normWs, this] at he
      rw [← he]
      exact this
  | c :: d :: t =>
      have := h c rfl
      intro e he
      simp [normWs, this] at he
      rw [← he]
      exact this

theorem lastOK_normWs (s : Str) (h : lastOK s) : lastOK (normWs s) := by
  match s with
  | [] => intro c hc; cases hc
  | [c] =>
      have := h c rfl
      intro e he
      simp [normWs, this] at he
      rw [← he]
      exact this
  | c :: d :: t =>
      have hlast : lastOK (d :: t) := by
        intro e he
        exact h e (by rw [getLast?_cons_ne_nil c (d :: t) (by simp)]; exact he)
      have ih := lastOK_normWs (d :: t) hlast
      have hne : normWs (d :: t) ≠ [] := normWs_ne_nil (d :: t) (by simp)
      intro e he
      by_cases hc : isPySpace c = true
      · by_cases hd : isPySpace d = true
        · rw [show normWs (c :: d :: t) = normWs (d :: t) by
            simp [normWs, hc, hd]] at he
          exact ih e he
        · rw [show normWs (c :: d :: t) = ' ' :: normWs (d :: t) by
            simp [normWs, hc, hd]] at he
          rw [getLast?_cons_ne_nil ' ' _ hne] at he
          exact ih e he
      · rw [show normWs (c :: d :: t) = c :: normWs (d :: t) by
          simp [normWs, hc]] at he
        rw [getLast?_cons_ne_nil c _ hne] at he
        exact ih e he

/-- With no ORG and no DIR match, redaction is a plain trim. -/
theorem redact_eq_strip (s : Str) (ho : orgMatch s = false)
    (hd : dirMatch s = false) : redact s = stripWs s := by
  unfold redact
  rw [subAll_id PATTERN_ORGANO s ho, subAll_id PATTERN_DIRECCION s hd]

/-- The second-run fixpoint of one text-box paragraph that the first run
rewrote to non-empty `v`: its normalized join is `normWs v`, and with no
marker match there the redaction candidate equals it. -/
theorem truthyNorm_rewritten (v : Str) (hv : v.isEmpty = false)
    (l : List (Option Str)) :
    truthyNorm (some v :: l.map (fun _ => some [])) = [normWs v] := by
  simp only [truthyNorm, List.filterMap_cons, hv]
  have : (l.map (fun _ => (some [] : Option Str))).filterMap
      (fun o => match o with
        | some t => if t.isEmpty then none else some (normWs t)
        | none => none) = [] := by
    induction l with
    | nil => rfl
    | cons a l ih => simp [ih]
  rw [this]
  simp

theorem cleanParas_id_of_noMatch (l : List Paragraph)
    (h : ∀ p ∈ l, orgMatch (paraText p) = false ∧
      dirMatch (paraText p) = false) :
    cleanParas l = (l, 0, 0) := by
  induction l with
  | nil => rfl
  | cons p ps ih =>
      have hp := h p (List.mem_cons_self p ps)
      have hstep : cleanParaStep p = (some p, 0, 0) := by
        simp [cleanParaStep, hp.1, hp.2]
      have ihp := ih (fun q hq => h q (List.mem_cons_of_mem p hq))
      simp [cleanParas, hstep, ihp]

theorem findSentinel_none_of (l : List Paragraph)
    (h : ∀ p ∈ l, sentMatch (paraText p) = false) :
    findSentinel l = none := by
  induction l with
  | nil => rfl
  | cons p ps ih =>
      have hp := h p (List.mem_cons_self p ps)
      simp [findSentinel, hp, ih (fun q hq => h q (List.mem_cons_of_mem p hq))]

theorem removeSig_id_of_noSent (l : List Paragraph)
    (h : ∀ p ∈ l, sentMatch (paraText p) = false) :
    removeSig l = (l, false, 0) := by
  simp [removeSig, findSentinel_none_of l h]

theorem take_no_sent :
    ∀ (l : List Paragraph) (i : Nat), findSentinel l = some i →
      ∀ p ∈ l.take i, sentMatch (paraText p) = false := by
  intro l
  induction l with
  | nil => intro i _ p hp; simp at hp
  | cons q rest ih =>
      intro i hi p hp
      by_cases hq : sentMatch (paraText q) = true
      · simp [findSentinel, hq] at hi
        subst hi
        simp at hp
      · simp [findSentinel, hq] at hi
        obtain ⟨j, hj, rfl⟩ := hi
        rw [List.take_succ_cons] at hp
        rcases List.mem_cons.mp hp with rfl | hp
        · simpa using hq
        · exact ih j hj p hp

/-- After truncation no surviving paragraph is a sentinel. -/
theorem removeSig_no_sent (l : List Paragraph) :
    ∀ p ∈ (removeSig l).1, sentMatch (paraText p) = false := by
  cases h : findSentinel l with
  | none =>
      intro p hp
      simp [removeSig, h] at hp
      exact findSentinel_none l h p hp
  | some i =>
      intro p hp
      simp [removeSig, h] at hp
      exact take_no_sent l i h p hp

/-! Header-pass idempotence. -/

theorem countD_pruneD (f : XNode) : countD (pruneD f) = 0 := by
  induction f with
  | nil => rfl
  | node i tag c s ihc ihs =>
      by_cases ht : tag = "tbl"
      · simp [pruneD, countD, ht, ihs]
      · by_cases hd : tag = "drawing"
        · simp [pruneD, countD, ht, hd, ihs]
        · simp [pruneD, countD, ht, hd, ihc, ihs]

theorem pruneD_id_of_countD_zero (f : XNode) (h : countD f = 0) :
    pruneD f = f := by
  induction f with
  | nil => rfl
  | node i tag c s ihc ihs =>
      by_cases ht : tag = "tbl"
      · rw [countD, if_pos ht] at h
        simp [pruneD, ht, ihs h]
      · by_cases hd : tag = "drawing"
        · rw [countD, if_neg ht, hd] at h
          simp at h
        · rw [countD, if_neg ht, if_neg hd] at h
          simp only [Nat.add_eq_zero] at h
          simp [pruneD, ht, hd, ihc h.1.2, ihs h.2]

theorem countD_pruneP_le (f : XNode) : countD (pruneP f) ≤ countD f := by
  induction f with
  | nil => exact Nat.le_refl _
  | node i tag c s ihc ihs =>
      by_cases ht : tag = "tbl"
      · simpa [pruneP, countD, ht] using ihs
      · by_cases hp : (tag = "pict" && !anyTx c) = true
        · rw [pruneP, if_neg ht, if_pos hp, countD, if_neg ht]
          omega
        · rw [pruneP, if_neg ht, if_neg hp, countD, if_neg ht,
            countD, if_neg ht]
          omega

theorem anyTx_pruneP (f : XNode) (h : anyTx f = true) :
    anyTx (pruneP f) = true := by
  induction f with
  | nil => cases h
  | node i tag c s ihc ihs =>
      rw [anyTx] at h
      by_cases ht : tag = "tbl"
      · rw [pruneP, if_pos ht, anyTx]
        rcases Bool.or_eq_true_iff.mp h with h1 | h2
        · rcases Bool.or_eq_true_iff.mp h1 with ha | hb
          · simp [ha]
          · simp [hb]
        · simp [ihs h2]
      · by_cases hp : (tag = "pict" && !anyTx c) = true
        · have hpict : tag = "pict" := by
            rcases Bool.and_eq_true_iff.mp hp with ⟨h1, -⟩
            simpa using h1
          have hnotx : anyTx c = false := by
            rcases Bool.and_eq_true_iff.mp hp with ⟨-, h2⟩
            simpa using h2
          rw [pruneP, if_neg ht, if_pos hp]
          apply ihs
          rcases Bool.or_eq_true_iff.mp h with h1 | h2
          · rcases Bool.or_eq_true_iff.mp h1 with ha | hb
            · rw [hpict] at ha; simp at ha
            · rw [hnotx] at hb; cases hb
          · exact h2
        · rw [pruneP, if_neg ht, if_neg hp, anyTx]
          rcases Bool.or_eq_true_iff.mp h with h1 | h2
          · rcases Bool.or_eq_true_iff.mp h1 with ha | hb
            · simp [ha]
            · simp [ihc hb]
          · simp [ihs h2]

theorem countP_pruneP (f : XNode) : countP (pruneP f) = 0 := by
  induction f with
  | nil => rfl
  | node i tag c s ihc ihs =>
      by_cases ht : tag = "tbl"
      · simp [pruneP, countP, ht, ihs]
      · by_cases hp : (tag = "pict" && !anyTx c) = true
        · simp [pruneP, ht, hp, ihs]
        · rw [pruneP, if_neg ht, if_neg hp, countP, if_neg ht, ihc, ihs]
          have : (tag = "pict" && !anyTx (pruneP c)) = false := by
            by_cases hpict : tag = "pict"
            · have htx : anyTx c = true := by
                by_contra hno
                have hfalse : anyTx c = false := by simpa using hno
                exact hp (by simp [hpict, hfalse])
              simp [hpict, anyTx_pruneP c htx]
            · simp [hpict]
          simp [this]

theorem pruneP_id_of_countP_zero (f : XNode) (h : countP f = 0) :
    pruneP f = f := by
  induction f with
  | nil => rfl
  | node i tag c s ihc ihs =>
      by_cases ht : tag = "tbl"
      · rw [countP, if_pos ht] at h
        simp [pruneP, ht, ihs h]
      · by_cases hp : (tag = "pict" && !anyTx c) = true
        · rw [countP, if_neg ht, if_pos hp] at h
          simp at h
        · rw [countP, if_neg ht, if_neg hp] at h
          simp only [Nat.add_eq_zero] at h
          simp [pruneP, ht, hp, ihc h.1.2, ihs h.2]

/-- A once-pruned header is a fixpoint of the image pass: the second run
removes nothing and counts nothing. -/
theorem removeHeaderImages_idem (f : XNode) :
    removeHeaderImages ((removeHeaderImages f).1) =
      ((removeHeaderImages f).1, 0) := by
  have h1 : countD (pruneP (pruneD f)) = 0 :=
    Nat.le_zero.mp (countD_pruneD f ▸ countD_pruneP_le (pruneD f))
  have h2 : pruneD (pruneP (pruneD f)) = pruneP (pruneD f) :=
    pruneD_id_of_countD_zero _ h1
  have h3 : countP (pruneP (pruneD f)) = 0 := countP_pruneP (pruneD f)
  unfold removeHeaderImages
  rw [h2, h3, h1, pruneP_id_of_countP_zero _ h3]

theorem headOK_redact (s : Str) : headOK (redact s) := headOK_stripWs _

theorem lastOK_redact (s : Str) : lastOK (redact s) := lastOK_stripWs _

theorem cleanTBPara_id_of_fix (ts : TPara) (hne : ts.isEmpty = false)
    (hfix : redact (joinSp (truthyNorm ts)) = joinSp (truthyNorm ts)) :
    cleanTBPara ts = (ts, false, 0) := by
  simp [cleanTBPara, hne, hfix]

theorem cleanTextboxes_cons (ts : TPara) (l : List TPara) :
    cleanTextboxes (ts :: l) =
      (if (cleanTBPara ts).2.1 then (cleanTextboxes l).1
       else (cleanTBPara ts).1 :: (cleanTextboxes l).1,
       (cleanTBPara ts).2.2 + (cleanTextboxes l).2) := rfl

/-- A text-box list the first run produced, with no marker matches left
in it, is a fixpoint of the text-box pass. -/
theorem cleanTextboxes_stable (l : List TPara)
    (h : ∀ ts ∈ (cleanTextboxes l).1,
      orgMatch (joinSp (truthyNorm ts)) = false ∧
      dirMatch (joinSp (truthyNorm ts)) = false) :
    cleanTextboxes (cleanTextboxes l).1 = ((cleanTextboxes l).1, 0) := by
  induction l with
  | nil => rfl
  | cons ts rest ih =>
      by_cases he : ts.isEmpty = true
      · have hstep : cleanTBPara ts = (ts, false, 0) := by
          simp [cleanTBPara, he]
        have hout : cleanTextboxes (ts :: rest) =
            (ts :: (cleanTextboxes rest).1, (cleanTextboxes rest).2) := by
          simp [cleanTextboxes, hstep]
        rw [hout] at h ⊢
        have hrest := ih (fun q hq => h q (List.mem_cons_of_mem ts hq))
        rw [cleanTextboxes_cons, hstep]
        simp [hrest]
      · by_cases heq : redact (joinSp (truthyNorm ts)) = joinSp (truthyNorm ts)
        · have hstep : cleanTBPara ts = (ts, false, 0) := by
            simp [cleanTBPara, he, heq]
          have hout : cleanTextboxes (ts :: rest) =
              (ts :: (cleanTextboxes rest).1, (cleanTextboxes rest).2) := by
            simp [cleanTextboxes, hstep]
          rw [hout] at h ⊢
          have hrest := ih (fun q hq => h q (List.mem_cons_of_mem ts hq))
          rw [cleanTextboxes_cons, hstep]
          simp [hrest]
        · by_cases hemp : (redact (joinSp (truthyNorm ts))).isEmpty = true
          · have hstep : cleanTBPara ts =
                (some (redact (joinSp (truthyNorm ts))) ::
                  ts.tail.map (fun _ => some []), true, 1) := by
              simp [cleanTBPara, he, heq, hemp]
            have hout : cleanTextboxes (ts :: rest) =
                ((cleanTextboxes rest).1, 1 + (cleanTextboxes rest).2) := by
              simp [cleanTextboxes, hstep]
            rw [hout] at h ⊢
            exact ih h
          · set v := redact (joinSp (truthyNorm ts)) with hv
            have hvne : v.isEmpty = false := by simpa using hemp
            have hstep : cleanTBPara ts =
                (some v :: ts.tail.map (fun _ => some []), false, 1) := by
              simp [cleanTBPara, he, heq, ← hv, hvne]
            have hout : cleanTextboxes (ts :: rest) =
                ((some v :: ts.tail.map (fun _ => some [])) ::
                   (cleanTextboxes rest).1,
                 1 + (cleanTextboxes rest).2) := by
              simp [cleanTextboxes, hstep]
            rw [hout] at h ⊢
            have hmem := h _ (List.mem_cons_self _ _)
            have hjoin : joinSp (truthyNorm
                (some v :: ts.tail.map (fun _ => some []))) = normWs v := by
              rw [truthyNorm_rewritten v hvne]
              rfl
            have horg : orgMatch (normWs v) = false := by
              rw [← hjoin]; exact hmem.1
            have hdir : dirMatch (normWs v) = false := by
              rw [← hjoin]; exact hmem.2
            have hfix : redact (normWs v) = normWs v := by
              rw [redact_eq_strip _ horg hdir]
              exact stripWs_eq_self _
                (headOK_normWs v (headOK_redact _))
                (lastOK_normWs v (lastOK_redact _))
            have hstep2 : cleanTBPara
                (some v :: ts.tail.map (fun _ => some [])) =
                (some v :: ts.tail.map (fun _ => some []), false, 0) :=
              cleanTBPara_id_of_fix _ rfl (by rw [hjoin, hfix])
            have hrest := ih (fun q hq => h q (List.mem_cons_of_mem _ hq))
            rw [cleanTextboxes_cons, hstep2]
            simp [hrest]

/-- C5 counterexample: on a document whose single body paragraph reads
ORG with a second copy of ORG spliced into its middle, the first run's
substitution (which scans left to right without rescanning its own
output) leaves `"ÓRGANO DE  FISCALIZACIÓN SUPERIOR"`, a text that
matches ORG again — so the second run redacts it to empty and removes
the paragraph: the second run's stats are not all zero and the document
changes again. -/
theorem C5_counterexample :
    (cleanDocument (cleanDocument ⟨[], [],
        [⟨[⟨"ÓRGANO DE ÓRGANO DE FISCALIZACIÓN SUPERIOR FISCALIZACIÓN SUPERIOR".data,
            0⟩]⟩], []⟩).1).2.paragraphs_removed = 1 ∧
    (cleanDocument (cleanDocument ⟨[], [],
        [⟨[⟨"ÓRGANO DE ÓRGANO DE FISCALIZACIÓN SUPERIOR FISCALIZACIÓN SUPERIOR".data,
            0⟩]⟩], []⟩).1).1 ≠
      (cleanDocument ⟨[], [],
        [⟨[⟨"ÓRGANO DE ÓRGANO DE FISCALIZACIÓN SUPERIOR FISCALIZACIÓN SUPERIOR".data,
            0⟩]⟩], []⟩).1 := by decide

/-- C5 as amended: running the engine a second time on its own output
changes nothing and reports pristine all-zero stats, *provided* the
first run's output contains no ORG/DIR match in any body paragraph and
none in any surviving text-box paragraph's normalized text (the
counterexample shows substitution can otherwise recompose a marker).
The header-image part needs no proviso at all. -/
theorem C5_idempotence_amended (d : Doc)
    (H1 : ∀ p ∈ (cleanDocument d).1.body,
       orgMatch (paraText p) = false ∧ dirMatch (paraText p) = false)
    (H2 : ∀ ts ∈ (cleanDocument d).1.textboxParas,
       orgMatch (joinSp (truthyNorm ts)) = false ∧
       dirMatch (joinSp (truthyNorm ts)) = false) :
    cleanDocument (cleanDocument d).1 = ((cleanDocument d).1, freshStats) := by
  have hhdr : ∀ h' ∈ (cleanDocument d).1.headers,
      removeHeaderImages h' = (h', 0) := by
    intro h' hh'
    have : ∃ h ∈ d.headers, (removeHeaderImages h).1 = h' := by
      simpa [cleanDocument, List.mem_map] using hh'
    obtain ⟨h, -, rfl⟩ := this
    exact removeHeaderImages_idem h
  have hmap : (cleanDocument d).1.headers.map removeHeaderImages =
      (cleanDocument d).1.headers.map (fun x => (x, 0)) :=
    List.map_congr_left hhdr
  have hbody : cleanParas (cleanDocument d).1.body =
      ((cleanDocument d).1.body, 0, 0) := cleanParas_id_of_noMatch _ H1
  have hnosent : ∀ p ∈ (cleanDocument d).1.body,
      sentMatch (paraText p) = false := by
    intro p hp
    exact removeSig_no_sent _ p hp
  have hsig : removeSig (cleanDocument d).1.body =
      ((cleanDocument d).1.body, false, 0) :=
    removeSig_id_of_noSent _ hnosent
  have htb : cleanTextboxes (cleanDocument d).1.textboxParas =
      ((cleanDocument d).1.textboxParas, 0) := by
    have : (cleanDocument d).1.textboxParas =
        (cleanTextboxes d.textboxParas).1 := rfl
    rw [this]
    exact cleanTextboxes_stable d.textboxParas (by rw [← this]; exact H2)
  refine Prod.ext ?_ ?_
  · show (⟨((cleanDocument d).1.headers.map removeHeaderImages).map Prod.fst,
      (cleanDocument d).1.footers,
      (removeSig (cleanParas (cleanDocument d).1.body).1).1,
      (cleanTextboxes (cleanDocument d).1.textboxParas).1⟩ : Doc) = _
    rw [hmap, hbody, htb, hsig]
    simp only [List.map_map]
    rw [show (Prod.fst ∘ fun x : XNode => (x, 0)) = id from rfl, List.map_id]
  · show (⟨(((cleanDocument d).1.headers.map removeHeaderImages).map
        Prod.snd).sum,
      (cleanParas (cleanDocument d).1.body).2.1,
      (cleanTextboxes (cleanDocument d).1.textboxParas).2,
      (removeSig (cleanParas (cleanDocument d).1.body).1).2.1,
      (cleanParas (cleanDocument d).1.body).2.2 +
        (removeSig (cleanParas (cleanDocument d).1.body).1).2.2,
      []⟩ : CleaningStats) = freshStats
    rw [hmap, hbody, htb, hsig]
    simp only [List.map_map]
    rw [show (Prod.snd ∘ fun x : XNode => (x, 0)) = (fun _ => 0) from rfl,
      List.map_const']
    simp [freshStats]

/-- Witness for C5 as amended, on a document that exercises every pass
in its first run: a header drawing is pruned, an ORG paragraph is
removed, a signature section is truncated, and a text box is redacted;
the provisos hold, so the second run is the identity with zero stats. -/
theorem C5_witness :
    cleanDocument (cleanDocument ⟨[XNode.node 1 "drawing" XNode.nil XNode.nil],
        [], [⟨[⟨"Hola".data, 0⟩]⟩,
             ⟨[⟨"ÓRGANO DE FISCALIZACIÓN SUPERIOR".data, 1⟩]⟩,
             ⟨[⟨"Elaboró: X".data, 2⟩]⟩],
        [[some "ÓRGANO DE FISCALIZACIÓN SUPERIOR y".data]]⟩).1 =
      ((cleanDocument ⟨[XNode.node 1 "drawing" XNode.nil XNode.nil],
        [], [⟨[⟨"Hola".data, 0⟩]⟩,
             ⟨[⟨"ÓRGANO DE FISCALIZACIÓN SUPERIOR".data, 1⟩]⟩,
             ⟨[⟨"Elaboró: X".data, 2⟩]⟩],
        [[some "ÓRGANO DE FISCALIZACIÓN SUPERIOR y".data]]⟩).1, freshStats) :=
  C5_idempotence_amended _ (by decide) (by decide)

/-! ### Exception granularity (C7) -/

/-- A paragraph the redaction pass rewrites (non-empty residue). -/
def cleanedP (p : Paragraph) : Bool :=
  (orgMatch (paraText p) || dirMatch (paraText p)) &&
    !(redact (paraText p)).isEmpty && !p.runs.isEmpty

/-- A paragraph the redaction pass detaches (empty residue). -/
def removedParaP (p : Paragraph) : Bool :=
  (orgMatch (paraText p) || dirMatch (paraText p)) &&
    (redact (paraText p)).isEmpty

/-- C7 counterexample: in one text-box container holding two paragraphs,
an exception on the first aborts the whole container — the second
paragraph, which carries an ORG marker and would have been cleaned, is
returned untouched and uncounted, refuting "processing continues with
the next sibling item … the remaining items of the same region or
container are still processed". -/
theorem C7_counterexample :
    cleanTextboxesE (fun k => if k = 0 then some "boom".data else none)
        [(0, [some "x".data]),
         (1, [some "ÓRGANO DE FISCALIZACIÓN SUPERIOR z".data])] =
      ([(0, [some "x".data]),
        (1, [some "ÓRGANO DE FISCALIZACIÓN SUPERIOR z".data])], 0,
       [tbErrMsg ++ "boom".data]) ∧
    (cleanTBPara [some "ÓRGANO DE FISCALIZACIÓN SUPERIOR z".data]).2.2 = 1 := by
  decide

/-- C7 as amended: the handler granularity is per *paragraph* in the
body pass (a raising paragraph is recorded and skipped, every other
paragraph is processed normally), per *container* in the text-box pass
(a raising paragraph records one message, keeps the processed prefix,
and leaves every remaining paragraph of that container unprocessed),
and per *section* in the header-image pass (a raising section keeps its
header and records one message, and the remaining sections are still
processed). -/
theorem C7_error_granularity_amended :
    (∀ (oracle : Nat → Option Str) (items : List (Nat × Paragraph)),
       cleanParasE oracle items =
         (items.filterMap (fun it =>
            match oracle it.1 with
            | some _ => some it
            | none => (cleanParaOpt it.2).map (fun q => (it.1, q))),
          (items.filter (fun it =>
             (oracle it.1).isNone && cleanedP it.2)).length,
          (items.filter (fun it =>
             (oracle it.1).isNone && removedParaP it.2)).length,
          items.filterMap (fun it =>
            (oracle it.1).map (fun m => parErrMsg ++ m)))) ∧
    (∀ (oracle : Nat → Option Str) (xs : List (Nat × TPara)) (k : Nat)
       (ts : TPara) (m : Str) (ys : List (Nat × TPara)),
       (∀ x ∈ xs, oracle x.1 = none) → oracle k = some m →
       cleanTextboxesE oracle (xs ++ (k, ts) :: ys) =
         ((cleanTextboxesE oracle xs).1 ++ (k, ts) :: ys,
          (cleanTextboxesE oracle xs).2.1, [tbErrMsg ++ m])) ∧
    (∀ (oracle : Nat → Option Str) (secs : List (Nat × XNode)),
       removeHeaderImagesE oracle secs =
         (secs.map (fun s =>
            match oracle s.1 with
            | some _ => s
            | none => (s.1, (removeHeaderImages s.2).1)),
          (secs.filterMap (fun s =>
            match oracle s.1 with
            | some _ => none
            | none => some (removeHeaderImages s.2).2)).sum,
          secs.filterMap (fun s =>
            (oracle s.1).map (fun m => imgErrMsg ++ m)))) := by
  refine ⟨?_, ?_, ?_⟩
  · intro oracle items
    induction items with
    | nil => rfl
    | cons it rest ih =>
        obtain ⟨k, p⟩ := it
        cases ho : oracle k with
        | some m =>
            simp only [cleanParasE, ho, ih, List.filterMap_cons, List.filter_cons]
            simp [ho]
        | none =>
            simp only [cleanParasE, ho, ih, List.filterMap_cons, List.filter_cons]
            by_cases hm : (orgMatch (paraText p) || dirMatch (paraText p)) = true
            · by_cases hr : (redact (paraText p)).isEmpty = true
              · have hstep : cleanParaStep p = (none, 0, 1) := by
                  simp [cleanParaStep, hm, hr]
                simp [hstep, ho, cleanParaOpt, cleanedP, removedParaP, hm, hr,
                  Nat.add_comm]
              · have hruns := runs_ne_nil_of_match p hm
                have hstep : cleanParaStep p =
                    (some (rewriteRuns p (redact (paraText p))), 1, 0) := by
                  simp [cleanParaStep, hm, hr, hruns]
                simp [hstep, ho, cleanParaOpt, cleanedP, removedParaP, hm, hr,
                  hruns, Nat.add_comm]
            · have hstep : cleanParaStep p = (some p, 0, 0) := by
                simp [cleanParaStep, hm]
              simp [hstep, ho, cleanParaOpt, cleanedP, removedParaP, hm]
  · intro oracle xs k ts m ys hxs hk
    induction xs with
    | nil => simp [cleanTextboxesE, hk]
    | cons x xs ih =>
        obtain ⟨j, tsj⟩ := x
        have hj : oracle j = none := hxs (j, tsj) (List.mem_cons_self _ _)
        have ih' := ih (fun y hy => hxs y (List.mem_cons_of_mem _ hy))
        simp only [List.cons_append, cleanTextboxesE, hj, ih']
        by_cases hrm : (cleanTBPara tsj).2.1 = true <;> simp [hrm, ih']
  · intro oracle secs
    induction secs with
    | nil => rfl
    | cons s rest ih =>
        obtain ⟨k, f⟩ := s
        cases ho : oracle k with
        | some m =>
            simp only [removeHeaderImagesE, ho, ih, List.map_cons,
              List.filterMap_cons]
            simp [ho]
        | none =>
            simp only [removeHeaderImagesE, ho, ih, List.map_cons,
              List.filterMap_cons]
            simp [ho]

/-- Witness for C7 as amended: all three granularities at concrete
inputs — a failing body paragraph between two processed ones, a failing
text-box paragraph aborting its container, and a failing first section
followed by a processed second section. -/
theorem C7_witness :
    cleanParasE (fun k => if k = 1 then some "e".data else none)
        [(0, ⟨[⟨"ÓRGANO DE FISCALIZACIÓN SUPERIOR".data, 0⟩]⟩),
         (1, ⟨[⟨"a".data, 1⟩]⟩), (2, ⟨[⟨"b".data, 2⟩]⟩)] =
      ([(1, ⟨[⟨"a".data, 1⟩]⟩), (2, ⟨[⟨"b".data, 2⟩]⟩)], 0, 1,
       [parErrMsg ++ "e".data]) ∧
    cleanTextboxesE (fun k => if k = 1 then some "e".data else none)
        [(0, [some "x".data]), (1, [some "y".data]), (2, [some "z".data])] =
      ([(0, [some "x".data]), (1, [some "y".data]), (2, [some "z".data])],
       0, [tbErrMsg ++ "e".data]) ∧
    removeHeaderImagesE (fun k => if k = 0 then some "e".data else none)
        [(0, XNode.node 5 "drawing" XNode.nil XNode.nil),
         (1, XNode.node 6 "drawing" XNode.nil XNode.nil)] =
      ([(0, XNode.node 5 "drawing" XNode.nil XNode.nil), (1, XNode.nil)], 1,
       [imgErrMsg ++ "e".data]) := by
  obtain ⟨h1, h2, h3⟩ := C7_error_granularity_amended
  refine ⟨?_, ?_, ?_⟩
  · rw [h1 (fun k => if k = 1 then some "e".data else none)
      [(0, ⟨[⟨"ÓRGANO DE FISCALIZACIÓN SUPERIOR".data, 0⟩]⟩),
       (1, ⟨[⟨"a".data, 1⟩]⟩), (2, ⟨[⟨"b".data, 2⟩]⟩)]]
    decide
  · have h := h2 (fun k => if k = 1 then some "e".data else none)
      [(0, [some "x".data])] 1 [some "y".data] "e".data
      [(2, [some "z".data])] (by decide) (by decide)
    rw [show ([(0, [some "x".data])] ++
        (1, [some "y".data]) :: [(2, [some "z".data])] : List (Nat × TPara)) =
      [(0, [some "x".data]), (1, [some "y".data]), (2, [some "z".data])]
      from rfl] at h
    rw [h]
    decide
  · rw [h3 (fun k => if k = 0 then some "e".data else none)
      [(0, XNode.node 5 "drawing" XNode.nil XNode.nil),
       (1, XNode.node 6 "drawing" XNode.nil XNode.nil)]]
    decide

/-! ### Header-image pass: paths, preservation and removal (C4, C10) -/

theorem descAt_mem_ids (f : XNode) :
    ∀ (π : List Nat) (n : XNode), descAt f π = some n →
      nodeId n ∈ idsF f := by
  induction f with
  | nil => intro π n hd; simp [descAt] at hd
  | node i tag c s ihc ihs =>
      intro π n hd
      match π with
      | [] => simp [descAt] at hd
      | [0] =>
          have hn : XNode.node i tag c s = n := by simpa [descAt] using hd
          simp [← hn, idsF, nodeId]
      | 0 :: j :: π'' =>
          have hd' : descAt c (j :: π'') = some n := hd
          have := ihc _ n hd'
          simp [idsF, this]
      | (k + 1) :: π' =>
          have hd' : descAt s (k :: π') = some n := hd
          have := ihs _ n hd'
          simp [idsF, this]

theorem idsF_pruneD_sublist (f : XNode) :
    List.Sublist (idsF (pruneD f)) (idsF f) := by
  induction f with
  | nil => simp [pruneD]
  | node i tag c s ihc ihs =>
      by_cases ht : tag = "tbl"
      · rw [pruneD, if_pos ht]
        exact List.Sublist.cons₂ _ ((List.Sublist.refl _).append ihs)
      · by_cases hd : tag = "drawing"
        · rw [pruneD, if_neg ht, if_pos hd]
          exact ihs.trans ((List.sublist_append_right (idsF c)
            (idsF s)).trans (List.sublist_cons_self i _))
        · rw [pruneD, if_neg ht, if_neg hd]
          exact List.Sublist.cons₂ _ (ihc.append ihs)

theorem idsF_pruneP_sublist (f : XNode) :
    List.Sublist (idsF (pruneP f)) (idsF f) := by
  induction f with
  | nil => simp [pruneP]
  | node i tag c s ihc ihs =>
      by_cases ht : tag = "tbl"
      · rw [pruneP, if_pos ht]
        exact List.Sublist.cons₂ _ ((List.Sublist.refl _).append ihs)
      · by_cases hp : (tag = "pict" && !anyTx c) = true
        · rw [pruneP, if_neg ht, if_pos hp]
          exact ihs.trans ((List.sublist_append_right (idsF c)
            (idsF s)).trans (List.sublist_cons_self i _))
        · rw [pruneP, if_neg ht, if_neg hp]
          exact List.Sublist.cons₂ _ (ihc.append ihs)

theorem nodup_parts {i : Nat} {l₁ l₂ : List Nat}
    (h : (i :: (l₁ ++ l₂)).Nodup) :
    i ∉ l₁ ∧ i ∉ l₂ ∧ l₁.Nodup ∧ l₂.Nodup ∧ ∀ x ∈ l₁, x ∉ l₂ := by
  rcases List.nodup_cons.mp h with ⟨hi, h12⟩
  rcases List.nodup_append.mp h12 with ⟨h1, h2, hdisj⟩
  exact ⟨fun hx => hi (List.mem_append_left _ hx),
         fun hx => hi (List.mem_append_right _ hx), h1, h2,
         fun x hx hx2 => hdisj hx hx2⟩

theorem survD_mem (f : XNode) :
    ∀ (π : List Nat) (n : XNode), descAt f π = some n →
      survD f π = true → nodeId n ∈ idsF (pruneD f) := by
  induction f with
  | nil => intro π n hd _; simp [descAt] at hd
  | node i tag c s ihc ihs =>
      intro π n hd hs
      match π with
      | [] => simp [descAt] at hd
      | [0] =>
          have hn : XNode.node i tag c s = n := by simpa [descAt] using hd
          by_cases ht : tag = "tbl"
          · rw [pruneD, if_pos ht]
            simp [← hn, idsF, nodeId]
          · by_cases hdg : tag = "drawing"
            · simp [survD, ht, hdg] at hs
            · rw [pruneD, if_neg ht, if_neg hdg]
              simp [← hn, idsF, nodeId]
      | 0 :: j :: π'' =>
          have hd' : descAt c (j :: π'') = some n := hd
          by_cases ht : tag = "tbl"
          · rw [pruneD, if_pos ht]
            have := descAt_mem_ids c _ n hd'
            simp [idsF, this]
          · by_cases hdg : tag = "drawing"
            · simp [survD, ht, hdg] at hs
            · have hs' : survD c (j :: π'') = true := by
                simpa [survD, ht, hdg] using hs
              rw [pruneD, if_neg ht, if_neg hdg]
              have := ihc _ n hd' hs'
              simp [idsF, this]
      | (k + 1) :: π' =>
          have hd' : descAt s (k :: π') = some n := hd
          have hs' : survD s (k :: π') = true := hs
          have hmem := ihs _ n hd' hs'
          by_cases ht : tag = "tbl"
          · rw [pruneD, if_pos ht]; simp [idsF, hmem]
          · by_cases hdg : tag = "drawing"
            · rw [pruneD, if_neg ht, if_pos hdg]; exact hmem
            · rw [pruneD, if_neg ht, if_neg hdg]; simp [idsF, hmem]

theorem survP_mem (f : XNode) :
    ∀ (π : List Nat) (n : XNode), descAt f π = some n →
      survP f π = true → nodeId n ∈ idsF (pruneP f) := by
  induction f with
  | nil => intro π n hd _; simp [descAt] at hd
  | node i tag c s ihc ihs =>
      intro π n hd hs
      match π with
      | [] => simp [descAt] at hd
      | [0] =>
          have hn : XNode.node i tag c s = n := by simpa [descAt] using hd
          by_cases ht : tag = "tbl"
          · rw [pruneP, if_pos ht]
            simp [← hn, idsF, nodeId]
          · by_cases hpk : (tag = "pict" && !anyTx c) = true
            · simp [survP, ht, hpk] at hs
            · rw [pruneP, if_neg ht, if_neg hpk]
              simp [← hn, idsF, nodeId]
      | 0 :: j :: π'' =>
          have hd' : descAt c (j :: π'') = some n := hd
          by_cases ht : tag = "tbl"
          · rw [pruneP, if_pos ht]
            have := descAt_mem_ids c _ n hd'
            simp [idsF, this]
          · by_cases hpk : (tag = "pict" && !anyTx c) = true
            · simp [survP, ht, hpk] at hs
            · have hs' : survP c (j :: π'') = true := by
                simpa [survP, ht, hpk] using hs
              rw [pruneP, if_neg ht, if_neg hpk]
              have := ihc _ n hd' hs'
              simp [idsF, this]
      | (k + 1) :: π' =>
          have hd' : descAt s (k :: π') = some n := hd
          have hs' : survP s (k :: π') = true := hs
          have hmem := ihs _ n hd' hs'
          by_cases ht : tag = "tbl"
          · rw [pruneP, if_pos ht]; simp [idsF, hmem]
          · by_cases hpk : (tag = "pict" && !anyTx c) = true
            · rw [pruneP, if_neg ht, if_pos hpk]; exact hmem
            · rw [pruneP, if_neg ht, if_neg hpk]; simp [idsF, hmem]

theorem eligD_single (i : Nat) (tag : String) (c s : XNode) :
    eligD (XNode.node i tag c s) [0] = decide (tag = "drawing") := by
  simp [eligD, descAt, noTblOn, nodeTag]

theorem eligD_zero_cons (i : Nat) (tag : String) (c s : XNode)
    (j : Nat) (π : List Nat) :
    eligD (XNode.node i tag c s) (0 :: j :: π) =
      (!decide (tag = "tbl") && eligD c (j :: π)) := by
  unfold eligD
  cases hdc : descAt c (j :: π) with
  | none => simp [descAt, hdc]
  | some n =>
      simp [descAt, hdc, noTblOn, Bool.and_comm, Bool.and_left_comm,
        Bool.and_assoc]

theorem eligD_succ (i : Nat) (tag : String) (c s : XNode)
    (k : Nat) (π : List Nat) :
    eligD (XNode.node i tag c s) ((k + 1) :: π) = eligD s (k :: π) := rfl

theorem eligP_single (i : Nat) (tag : String) (c s : XNode) :
    eligP (XNode.node i tag c s) [0] =
      (decide (tag = "pict") && !anyTx c) := by
  simp [eligP, descAt, noTblOn, nodeTag, nodeChild]

theorem eligP_zero_cons (i : Nat) (tag : String) (c s : XNode)
    (j : Nat) (π : List Nat) :
    eligP (XNode.node i tag c s) (0 :: j :: π) =
      (!decide (tag = "tbl") && eligP c (j :: π)) := by
  unfold eligP
  cases hdc : descAt c (j :: π) with
  | none => simp [descAt, hdc]
  | some n =>
      simp [descAt, hdc, noTblOn, Bool.and_comm, Bool.and_left_comm,
        Bool.and_assoc]

theorem eligP_succ (i : Nat) (tag : String) (c s : XNode)
    (k : Nat) (π : List Nat) :
    eligP (XNode.node i tag c s) ((k + 1) :: π) = eligP s (k :: π) := rfl

theorem eligD_removed (f : XNode) :
    ∀ (π : List Nat) (n : XNode), (idsF f).Nodup →
      descAt f π = some n → eligD f π = true →
      nodeId n ∉ idsF (pruneD f) := by
  induction f with
  | nil => intro π n _ hd; simp [descAt] at hd
  | node i tag c s ihc ihs =>
      intro π n hnd hd he
      obtain ⟨hic, his, hndc, hnds, hdisj⟩ :=
        nodup_parts (by simpa [idsF] using hnd)
      match π with
      | [] => simp [descAt] at hd
      | [0] =>
          have hn : XNode.node i tag c s = n := by simpa [descAt] using hd
          have htag : tag = "drawing" := by
            rw [eligD_single] at he
            simpa using he
          have hnid : nodeId n = i := by rw [← hn]; rfl
          rw [pruneD, if_neg (by simp [htag]), if_pos htag, hnid]
          intro hx
          exact his ((idsF_pruneD_sublist s).subset hx)
      | 0 :: j :: π'' =>
          have hd' : descAt c (j :: π'') = some n := hd
          rw [eligD_zero_cons] at he
          obtain ⟨ht, he'⟩ := Bool.and_eq_true_iff.mp he
          have htbl : ¬ tag = "tbl" := by simpa using ht
          have hmem := descAt_mem_ids c _ n hd'
          by_cases hdg : tag = "drawing"
          · rw [pruneD, if_neg htbl, if_pos hdg]
            intro hx
            exact hdisj _ hmem ((idsF_pruneD_sublist s).subset hx)
          · rw [pruneD, if_neg htbl, if_neg hdg]
            simp only [idsF, List.mem_cons, List.mem_append]
            rintro (hx | hx | hx)
            · exact hic (hx ▸ hmem)
            · exact ihc _ n hndc hd' he' hx
            · exact hdisj _ hmem ((idsF_pruneD_sublist s).subset hx)
      | (k + 1) :: π' =>
          have hd' : descAt s (k :: π') = some n := hd
          have he' : eligD s (k :: π') = true := by
            rw [eligD_succ] at he; exact he
          have hmem := descAt_mem_ids s _ n hd'
          have hnotc : nodeId n ∉ idsF (pruneD c) := fun hx =>
            hdisj _ ((idsF_pruneD_sublist c).subset hx) hmem
          have hnotc' : nodeId n ∉ idsF c := fun hx => hdisj _ hx hmem
          have hne : ¬ nodeId n = i := fun hx => his (hx ▸ hmem)
          by_cases ht : tag = "tbl"
          · rw [pruneD, if_pos ht]
            simp only [idsF, List.mem_cons, List.mem_append]
            rintro (hx | hx | hx)
            · exact hne hx
            · exact hnotc' hx
            · exact ihs _ n hnds hd' he' hx
          · by_cases hdg : tag = "drawing"
            · rw [pruneD, if_neg ht, if_pos hdg]
              exact ihs _ n hnds hd' he'
            · rw [pruneD, if_neg ht, if_neg hdg]
              simp only [idsF, List.mem_cons, List.mem_append]
              rintro (hx | hx | hx)
              · exact hne hx
              · exact hnotc hx
              · exact ihs _ n hnds hd' he' hx

theorem eligP_removed (f : XNode) :
    ∀ (π : List Nat) (n : XNode), (idsF f).Nodup →
      descAt f π = some n → eligP f π = true →
      nodeId n ∉ idsF (pruneP f) := by
  induction f with
  | nil => intro π n _ hd; simp [descAt] at hd
  | node i tag c s ihc ihs =>
      intro π n hnd hd he
      obtain ⟨hic, his, hndc, hnds, hdisj⟩ :=
        nodup_parts (by simpa [idsF] using hnd)
      match π with
      | [] => simp [descAt] at hd
      | [0] =>
          have hn : XNode.node i tag c s = n := by simpa [descAt] using hd
          have htag : (decide (tag = "pict") && !anyTx c) = true := by
            rw [eligP_single] at he
            exact he
          have hnottbl : ¬ tag = "tbl" := by
            rcases Bool.and_eq_true_iff.mp htag with ⟨h1, -⟩
            intro hx
            rw [hx] at h1
            simp at h1
          have hnid : nodeId n = i := by rw [← hn]; rfl
          rw [pruneP, if_neg hnottbl, if_pos htag, hnid]
          intro hx
          exact his ((idsF_pruneP_sublist s).subset hx)
      | 0 :: j :: π'' =>
          have hd' : descAt c (j :: π'') = some n := hd
          rw [eligP_zero_cons] at he
          obtain ⟨ht, he'⟩ := Bool.and_eq_true_iff.mp he
          have htbl : ¬ tag = "tbl" := by simpa using ht
          have hmem := descAt_mem_ids c _ n hd'
          by_cases hpk : (tag = "pict" && !anyTx c) = true
          · rw [pruneP, if_neg htbl, if_pos hpk]
            intro hx
            exact hdisj _ hmem ((idsF_pruneP_sublist s).subset hx)
          · rw [pruneP, if_neg htbl, if_neg hpk]
            simp only [idsF, List.mem_cons, List.mem_append]
            rintro (hx | hx | hx)
            · exact hic (hx ▸ hmem)
            · exact ihc _ n hndc hd' he' hx
            · exact hdisj _ hmem ((idsF_pruneP_sublist s).subset hx)
      | (k + 1) :: π' =>
          have hd' : descAt s (k :: π') = some n := hd
          have he' : eligP s (k :: π') = true := by
            rw [eligP_succ] at he; exact he
          have hmem := descAt_mem_ids s _ n hd'
          have hnotc : nodeId n ∉ idsF (pruneP c) := fun hx =>
            hdisj _ ((idsF_pruneP_sublist c).subset hx) hmem
          have hnotc' : nodeId n ∉ idsF c := fun hx => hdisj _ hx hmem
          have hne : ¬ nodeId n = i := fun hx => his (hx ▸ hmem)
          by_cases ht : tag = "tbl"
          · rw [pruneP, if_pos ht]
            simp only [idsF, List.mem_cons, List.mem_append]
            rintro (hx | hx | hx)
            · exact hne hx
            · exact hnotc' hx
            · exact ihs _ n hnds hd' he' hx
          · by_cases hpk : (tag = "pict" && !anyTx c) = true
            · rw [pruneP, if_neg ht, if_pos hpk]
              exact ihs _ n hnds hd' he'
            · rw [pruneP, if_neg ht, if_neg hpk]
              simp only [idsF, List.mem_cons, List.mem_append]
              rintro (hx | hx | hx)
              · exact hne hx
              · exact hnotc hx
              · exact ihs _ n hnds hd' he' hx

/-- Shift the root index of a path by one. -/
def bump : List Nat → List Nat
  | [] => []
  | i :: ρ => (i + 1) :: ρ

theorem pathsAux_succ (f : XNode) :
    ∀ k, pathsAux (k + 1) f = (pathsAux k f).map bump := by
  induction f with
  | nil => intro k; rfl
  | node i tag c s ihc ihs =>
      intro k
      simp only [pathsAux, List.map_cons, List.map_append, List.map_map]
      refine congrArg₂ _ rfl (congrArg₂ _ ?_ ?_)
      · refine List.map_congr_left ?_
        intro ρ _
        rfl
      · exact ihs (k + 1)

theorem pathsAux_ne_nil (f : XNode) :
    ∀ (k : Nat) (π : List Nat), π ∈ pathsAux k f → π ≠ [] := by
  induction f with
  | nil => intro k π h; cases h
  | node i tag c s ihc ihs =>
      intro k π h
      rw [pathsAux] at h
      rcases List.mem_cons.mp h with rfl | h
      · simp
      · rcases List.mem_append.mp h with h | h
        · obtain ⟨ρ, -, rfl⟩ := List.mem_map.mp h
          simp
        · exact ihs (k + 1) π h

theorem lengthFilterMap {α β : Type} (g : α → β) (p : β → Bool)
    (l : List α) :
    ((l.map g).filter p).length = (l.filter (fun x => p (g x))).length := by
  induction l with
  | nil => rfl
  | cons a l ih =>
      by_cases h : p (g a) = true <;>
        simp [List.filter_cons, h, ih]

theorem countD_paths (f : XNode) :
    countD f = ((pathsF f).filter (eligD f)).length := by
  induction f with
  | nil => rfl
  | node i tag c s ihc ihs =>
      have hpaths : pathsF (XNode.node i tag c s) =
          [0] :: ((pathsAux 0 c).map (0 :: ·) ++ pathsAux 1 s) := rfl
      rw [hpaths, List.filter_cons, List.filter_append]
      have hcpart : ((List.filter (eligD (XNode.node i tag c s))
          ((pathsAux 0 c).map (0 :: ·)))).length =
          if tag = "tbl" then 0 else countD c := by
        rw [lengthFilterMap]
        by_cases ht : tag = "tbl"
        · rw [if_pos ht]
          have hz : List.filter
              (fun ρ => eligD (XNode.node i tag c s) (0 :: ρ))
              (pathsAux 0 c) = [] := by
            rw [List.filter_eq_nil_iff]
            intro ρ hρ
            obtain ⟨j, π'', rfl⟩ : ∃ j π'', ρ = j :: π'' := by
              cases ρ with
              | nil => exact absurd rfl (pathsAux_ne_nil c 0 [] hρ)
              | cons j π'' => exact ⟨j, π'', rfl⟩
            rw [eligD_zero_cons]
            simp [ht]
          rw [hz]
          rfl
        · rw [if_neg ht]
          have hcong : List.filter
              (fun ρ => eligD (XNode.node i tag c s) (0 :: ρ))
              (pathsAux 0 c) =
              List.filter (eligD c) (pathsAux 0 c) := by
            refine List.filter_congr ?_
            intro ρ hρ
            obtain ⟨j, π'', rfl⟩ : ∃ j π'', ρ = j :: π'' := by
              cases ρ with
              | nil => exact absurd rfl (pathsAux_ne_nil c 0 [] hρ)
              | cons j π'' => exact ⟨j, π'', rfl⟩
            rw [eligD_zero_cons]
            simp [ht]
          rw [hcong]
          exact ihc.symm
      have hspart : ((List.filter (eligD (XNode.node i tag c s))
          (pathsAux 1 s))).length = countD s := by
        rw [pathsAux_succ s 0, lengthFilterMap]
        have hcong : List.filter
            (fun ρ => eligD (XNode.node i tag c s) (bump ρ))
            (pathsAux 0 s) =
            List.filter (eligD s) (pathsAux 0 s) := by
          refine List.filter_congr ?_
          intro ρ hρ
          obtain ⟨k, π', rfl⟩ : ∃ k π', ρ = k :: π' := by
            cases ρ with
            | nil => exact absurd rfl (pathsAux_ne_nil s 0 [] hρ)
            | cons k π' => exact ⟨k, π', rfl⟩
          rw [show bump (k :: π') = (k + 1) :: π' from rfl, eligD_succ]
        rw [hcong]
        exact ihs.symm
      by_cases ht : tag = "tbl"
      · have hhead : eligD (XNode.node i tag c s) [0] = false := by
          rw [eligD_single, ht]
          simp
        rw [hhead, countD, if_pos ht]
        simp only [Bool.false_eq_true, if_false, List.length_append]
        rw [hcpart, hspart, if_pos ht]
        omega
      · rw [countD, if_neg ht]
        by_cases hdg : tag = "drawing"
        · have hhead : eligD (XNode.node i tag c s) [0] = true := by
            rw [eligD_single, hdg]
            simp
          rw [hhead]
          simp only [if_true, List.length_cons, List.length_append]
          rw [hcpart, hspart, if_neg ht, if_pos hdg]
          omega
        · have hhead : eligD (XNode.node i tag c s) [0] = false := by
            rw [eligD_single]
            simp [hdg]
          rw [hhead]
          simp only [Bool.false_eq_true, if_false, List.length_append]
          rw [hcpart, hspart, if_neg ht, if_neg hdg]
          omega

theorem countP_paths (f : XNode) :
    countP f = ((pathsF f).filter (eligP f)).length := by
  induction f with
  | nil => rfl
  | node i tag c s ihc ihs =>
      have hpaths : pathsF (XNode.node i tag c s) =
          [0] :: ((pathsAux 0 c).map (0 :: ·) ++ pathsAux 1 s) := rfl
      rw [hpaths, List.filter_cons, List.filter_append]
      have hcpart : ((List.filter (eligP (XNode.node i tag c s))
          ((pathsAux 0 c).map (0 :: ·)))).length =
          if tag = "tbl" then 0 else countP c := by
        rw [lengthFilterMap]
        by_cases ht : tag = "tbl"
        · rw [if_pos ht]
          have hz : List.filter
              (fun ρ => eligP (XNode.node i tag c s) (0 :: ρ))
              (pathsAux 0 c) = [] := by
            rw [List.filter_eq_nil_iff]
            intro ρ hρ
            obtain ⟨j, π'', rfl⟩ : ∃ j π'', ρ = j :: π'' := by
              cases ρ with
              | nil => exact absurd rfl (pathsAux_ne_nil c 0 [] hρ)
              | cons j π'' => exact ⟨j, π'', rfl⟩
            rw [eligP_zero_cons]
            simp [ht]
          rw [hz]
          rfl
        · rw [if_neg ht]
          have hcong : List.filter
              (fun ρ => eligP (XNode.node i tag c s) (0 :: ρ))
              (pathsAux 0 c) =
              List.filter (eligP c) (pathsAux 0 c) := by
            refine List.filter_congr ?_
            intro ρ hρ
            obtain ⟨j, π'', rfl⟩ : ∃ j π'', ρ = j :: π'' := by
              cases ρ with
              | nil => exact absurd rfl (pathsAux_ne_nil c 0 [] hρ)
              | cons j π'' => exact ⟨j, π'', rfl⟩
            rw [eligP_zero_cons]
            simp [ht]
          rw [hcong]
          exact ihc.symm
      have hspart : ((List.filter (eligP (XNode.node i tag c s))
          (pathsAux 1 s))).length = countP s := by
        rw [pathsAux_succ s 0, lengthFilterMap]
        have hcong : List.filter
            (fun ρ => eligP (XNode.node i tag c s) (bump ρ))
            (pathsAux 0 s) =
            List.filter (eligP s) (pathsAux 0 s) := by
          refine List.filter_congr ?_
          intro ρ hρ
          obtain ⟨k, π', rfl⟩ : ∃ k π', ρ = k :: π' := by
            cases ρ with
            | nil => exact absurd rfl (pathsAux_ne_nil s 0 [] hρ)
            | cons k π' => exact ⟨k, π', rfl⟩
          rw [show bump (k :: π') = (k + 1) :: π' from rfl, eligP_succ]
        rw [hcong]
        exact ihs.symm
      by_cases ht : tag = "tbl"
      · have hhead : eligP (XNode.node i tag c s) [0] = false := by
          rw [eligP_single, ht]
          simp
        rw [hhead, countP, if_pos ht]
        simp only [Bool.false_eq_true, if_false, List.length_append]
        rw [hcpart, hspart, if_pos ht]
        omega
      · rw [countP, if_neg ht]
        by_cases hpk : (tag = "pict" && !anyTx c) = true
        · have hhead : eligP (XNode.node i tag c s) [0] = true := by
            rw [eligP_single]
            exact hpk
          rw [hhead]
          simp only [if_true, List.length_cons, List.length_append]
          rw [hcpart, hspart, if_neg ht, if_pos hpk]
          omega
        · have hhead : eligP (XNode.node i tag c s) [0] = false := by
            rw [eligP_single]
            simpa using hpk
          rw [hhead]
          simp only [Bool.false_eq_true, if_false, List.length_append]
          rw [hcpart, hspart, if_neg ht, if_neg hpk]
          omega

theorem descAt_mem_paths (f : XNode) :
    ∀ (π : List Nat) (n : XNode), descAt f π = some n → π ∈ pathsF f := by
  induction f with
  | nil => intro π n hd; simp [descAt] at hd
  | node i tag c s ihc ihs =>
      intro π n hd
      match π with
      | [] => simp [descAt] at hd
      | [0] => exact List.mem_cons_self _ _
      | 0 :: j :: π'' =>
          have hd' : descAt c (j :: π'') = some n := hd
          have := ihc _ n hd'
          rw [show pathsF (XNode.node i tag c s) =
            [0] :: ((pathsAux 0 c).map (0 :: ·) ++ pathsAux 1 s) from rfl]
          exact List.mem_cons_of_mem _
            (List.mem_append_left _ (List.mem_map_of_mem _ this))
      | (k + 1) :: π' =>
          have hd' : descAt s (k :: π') = some n := hd
          have := ihs _ n hd'
          rw [show pathsF (XNode.node i tag c s) =
            [0] :: ((pathsAux 0 c).map (0 :: ·) ++ pathsAux 1 s) from rfl]
          refine List.mem_cons_of_mem _ (List.mem_append_right _ ?_)
          rw [pathsAux_succ s 0]
          exact List.mem_map.mpr ⟨k :: π', this, rfl⟩

/-- C4 counterexample: a header whose only root is a drawing (id 1, no
table ancestor) containing a legacy pict (id 2) that holds a
`txbxContent` (id 3).  The claim says the pict — a legacy carrier
containing a TextBoxContent — is still present afterwards; but the
drawing loop detaches the drawing with everything inside it, so the
pict is gone (and only the drawing was counted). -/
theorem C4_counterexample :
    descAt (XNode.node 1 "drawing"
        (XNode.node 2 "pict" (XNode.node 3 "txbxContent" XNode.nil XNode.nil)
          XNode.nil) XNode.nil) [0, 0] =
      some (XNode.node 2 "pict"
        (XNode.node 3 "txbxContent" XNode.nil XNode.nil) XNode.nil) ∧
    nodeTag (XNode.node 2 "pict"
      (XNode.node 3 "txbxContent" XNode.nil XNode.nil) XNode.nil) = "pict" ∧
    anyTx (nodeChild (XNode.node 2 "pict"
      (XNode.node 3 "txbxContent" XNode.nil XNode.nil) XNode.nil)) = true ∧
    noTblOn (XNode.node 1 "drawing"
        (XNode.node 2 "pict" (XNode.node 3 "txbxContent" XNode.nil XNode.nil)
          XNode.nil) XNode.nil) [0, 0] = true ∧
    removeHeaderImages (XNode.node 1 "drawing"
        (XNode.node 2 "pict" (XNode.node 3 "txbxContent" XNode.nil XNode.nil)
          XNode.nil) XNode.nil) = (XNode.nil, 1) ∧
    (2 : Nat) ∉ idsF (removeHeaderImages (XNode.node 1 "drawing"
        (XNode.node 2 "pict" (XNode.node 3 "txbxContent" XNode.nil XNode.nil)
          XNode.nil) XNode.nil)).1 := by decide

/-- C4 as amended: the pass detaches every drawing with no `tbl`
ancestor and — after the drawing phase — every pict with no `tbl`
ancestor and no `txbxContent` inside, counting `images_removed` once per
such carrier (conjunct 1 and the two removal conjuncts); every other
carrier survives *provided it does not sit inside a detached carrier* —
made precise by the two preservation conjuncts, whose path conditions
(`survD`, `survP`) say that no carrier on the way down is detached. -/
theorem C4_header_image_pruning_amended :
    (∀ f : XNode, (removeHeaderImages f).2 =
        ((pathsF f).filter (eligD f)).length +
        ((pathsF (pruneD f)).filter (eligP (pruneD f))).length) ∧
    (∀ (f : XNode) (π : List Nat) (n : XNode), (idsF f).Nodup →
        descAt f π = some n → eligD f π = true →
        nodeId n ∉ idsF (removeHeaderImages f).1) ∧
    (∀ (f : XNode) (π : List Nat) (n : XNode), (idsF f).Nodup →
        descAt (pruneD f) π = some n → eligP (pruneD f) π = true →
        nodeId n ∉ idsF (removeHeaderImages f).1) ∧
    (∀ (f : XNode) (π : List Nat) (n : XNode),
        descAt f π = some n → survD f π = true →
        nodeId n ∈ idsF (pruneD f)) ∧
    (∀ (u : XNode) (π : List Nat) (n : XNode),
        descAt u π = some n → survP u π = true →
        nodeId n ∈ idsF (pruneP u)) := by
  refine ⟨?_, ?_, ?_, survD_mem, survP_mem⟩
  · intro f
    show countD f + countP (pruneD f) = _
    rw [countD_paths, countP_paths]
  · intro f π n hnd hd he hx
    exact eligD_removed f π n hnd hd he
      ((idsF_pruneP_sublist (pruneD f)).subset hx)
  · intro f π n hnd hd he hx
    exact eligP_removed (pruneD f) π n
      ((idsF_pruneD_sublist f).nodup hnd) hd he hx

/-- The header forest used by the C4 witness: a detachable drawing
(id 1), a table (id 2) holding a protected drawing (id 3), a protected
pict (id 4) holding a `txbxContent` (id 5), and a detachable pict
(id 6). -/
def c4WitnessHeader : XNode :=
  XNode.node 1 "drawing" XNode.nil
    (XNode.node 2 "tbl" (XNode.node 3 "drawing" XNode.nil XNode.nil)
      (XNode.node 4 "pict" (XNode.node 5 "txbxContent" XNode.nil XNode.nil)
        (XNode.node 6 "pict" XNode.nil XNode.nil)))

/-- Witness for C4 as amended, on `c4WitnessHeader`: the count
characterization, the removal of the free drawing (id 1) and of the
text-box-free pict (id 6), and the survival of the table-protected
drawing (id 3) and of the text-box-carrying pict (id 4). -/
theorem C4_witness :
    (removeHeaderImages c4WitnessHeader).2 =
      ((pathsF c4WitnessHeader).filter (eligD c4WitnessHeader)).length +
      ((pathsF (pruneD c4WitnessHeader)).filter
        (eligP (pruneD c4WitnessHeader))).length ∧
    (1 : Nat) ∉ idsF (removeHeaderImages c4WitnessHeader).1 ∧
    (6 : Nat) ∉ idsF (removeHeaderImages c4WitnessHeader).1 ∧
    (3 : Nat) ∈ idsF (pruneD c4WitnessHeader) ∧
    (4 : Nat) ∈ idsF (pruneP (pruneD c4WitnessHeader)) := by
  obtain ⟨hA, hB, hC, hD, hE⟩ := C4_header_image_pruning_amended
  refine ⟨hA c4WitnessHeader, ?_, ?_, ?_, ?_⟩
  · exact hB c4WitnessHeader [0]
      (XNode.node 1 "drawing" XNode.nil
        (XNode.node 2 "tbl" (XNode.node 3 "drawing" XNode.nil XNode.nil)
          (XNode.node 4 "pict"
            (XNode.node 5 "txbxContent" XNode.nil XNode.nil)
            (XNode.node 6 "pict" XNode.nil XNode.nil))))
      (by decide) (by decide) (by decide)
  · exact hC c4WitnessHeader [2]
      (XNode.node 6 "pict" XNode.nil XNode.nil)
      (by decide) (by decide) (by decide)
  · exact hD c4WitnessHeader [1, 0]
      (XNode.node 3 "drawing" XNode.nil XNode.nil)
      (by decide) (by decide)
  · exact hE (pruneD c4WitnessHeader) [1]
      (XNode.node 4 "pict" (XNode.node 5 "txbxContent" XNode.nil XNode.nil)
        (XNode.node 6 "pict" XNode.nil XNode.nil))
      (by decide) (by decide)

/-- C10 (implicit, confirmed): a modern drawing carrier in a header
with no table ancestor is detached and counted even when it contains a
`txbxContent` somewhere inside — the text-box protection applies only
to legacy pict carriers, so text held in a text box nested inside such
a drawing is removed along with it. -/
theorem C10_drawing_with_textbox_removed (f : XNode) (π : List Nat)
    (n : XNode) (hnd : (idsF f).Nodup) (hd : descAt f π = some n)
    (htag : nodeTag n = "drawing") (htx : anyTx (nodeChild n) = true)
    (hnotbl : noTblOn f π = true) :
    nodeId n ∉ idsF (removeHeaderImages f).1 ∧
    1 ≤ (removeHeaderImages f).2 := by
  have he : eligD f π = true := by
    unfold eligD
    rw [hd]
    simp [htag, hnotbl]
  constructor
  · intro hx
    exact eligD_removed f π n hnd hd he
      ((idsF_pruneP_sublist (pruneD f)).subset hx)
  · have hmem : π ∈ (pathsF f).filter (eligD f) :=
      List.mem_filter.mpr ⟨descAt_mem_paths f π n hd, he⟩
    have hpos : 0 < ((pathsF f).filter (eligD f)).length :=
      List.length_pos.mpr (fun hnil => by rw [hnil] at hmem; cases hmem)
    have : (removeHeaderImages f).2 =
        ((pathsF f).filter (eligD f)).length +
        ((pathsF (pruneD f)).filter (eligP (pruneD f))).length := by
      show countD f + countP (pruneD f) = _
      rw [countD_paths, countP_paths]
    omega

/-- Witness for C10: a header whose single root is a drawing (id 7)
wrapping a text box (id 8) — it is removed and counted. -/
theorem C10_witness :
    nodeId (XNode.node 7 "drawing"
        (XNode.node 8 "txbxContent" XNode.nil XNode.nil) XNode.nil) ∉
      idsF (removeHeaderImages (XNode.node 7 "drawing"
        (XNode.node 8 "txbxContent" XNode.nil XNode.nil) XNode.nil)).1 ∧
    1 ≤ (removeHeaderImages (XNode.node 7 "drawing"
        (XNode.node 8 "txbxContent" XNode.nil XNode.nil) XNode.nil)).2 :=
  C10_drawing_with_textbox_removed
    (XNode.node 7 "drawing" (XNode.node 8 "txbxContent" XNode.nil XNode.nil)
      XNode.nil) [0]
    (XNode.node 7 "drawing" (XNode.node 8 "txbxContent" XNode.nil XNode.nil)
      XNode.nil)
    (by decide) (by decide) (by decide) (by decide) (by decide)

end CleanDoc



